import Mathlib

/-!
Verification of the ScaleInsights Excel merge engine
(`scripts/utils/parser.py`).

The engine is shallowly embedded: Python cell values become the
inductive `CellValue`, Python floats become `PyFloat` (NaN and the two
infinities are explicit; a finite float is modelled by the exact
rational number its shortest decimal repr denotes, kept as a
normalized numerator/denominator pair `PyRat`), Python dicts become
association lists with in-place update (`dset`), and code that can
raise an uncaught exception returns `Except PyError`.

All definitions are executable by kernel reduction: string operations
work on the character list of a `String`, and rational normalization
uses `Nat.gcd`.

Modelling notes (divergences from CPython that no theorem depends on):
* case mapping (`str.upper`/`str.lower`), whitespace stripping and the
  regex class `\d` are modelled on ASCII only;
* `float(s)` overflow to an infinity uses the cutoff 2^1024 and
  underflow to zero the cutoff 2^-1075 (the exact IEEE round-to-even
  boundaries differ microscopically), decimal exponents beyond 10^4 in
  magnitude are classified by their sign, and the value of a finite
  float is kept exactly rather than rounded to 53 mantissa bits;
* scientific-notation `repr` of very large/small floats is not
  modelled: the repr of a finite float is its plain decimal expansion.
-/

set_option maxRecDepth 8000

namespace ScaleInsights

/-! ### Rational values (finite Python floats) -/

/-- A rational value kept as a numerator/denominator pair.  Every
`PyRat` built by `qNorm` is normalized (positive denominator, reduced),
so structural equality is value equality. -/
structure PyRat where
  n : ℤ
  d : ℕ
deriving DecidableEq, Repr

/-- Build the normalized fraction `n / d` (`d = 0` never occurs in this
development and is mapped to `0`). -/
def qNorm (n : ℤ) (d : ℕ) : PyRat :=
  if d = 0 then { n := 0, d := 1 }
  else
    let g := Nat.gcd n.natAbs d
    { n := n.tdiv (g : ℤ), d := d / g }

/-- Truncation toward zero, Python `int(...)` on a finite float. -/
def pyTrunc (q : PyRat) : ℤ := q.n.tdiv (q.d : ℤ)

/-- Python `> 0` on a finite float value. -/
def qPos (q : PyRat) : Bool := decide (0 < q.n)

/-- Model of a Python float: NaN, the infinities, or a finite value
(identified with the rational its shortest decimal repr denotes). -/
inductive PyFloat where
  | nan
  | inf
  | neginf
  | finite (q : PyRat)
deriving DecidableEq, Repr

/-- Model of one spreadsheet cell as produced by
`CalamineWorkbook...to_python()`: `None`, `str`, `int`, `float`,
`bool`, `datetime.date` or `datetime.datetime`. -/
inductive CellValue where
  | none
  | str (s : String)
  | int (n : ℤ)
  | float (f : PyFloat)
  | bool (b : Bool)
  | date (y m d : ℕ)
  | datetime (y m d hh mi ss : ℕ)
deriving DecidableEq, Repr

/-- Uncaught exceptions of the engine.  The first four are the
`ValueError`s raised deliberately by `parse_excel` (schema errors); the
last two are accidental: `IndexError` from `row[i]` and
`OverflowError` from `int(float(...))` on an infinite value. -/
inductive PyError where
  | noSheets
  | emptyPrimary
  | missingColumns (cols : List String)
  | noDateColumns
  | indexError
  | overflowError
deriving DecidableEq, Repr

instance {ε α : Type} [DecidableEq ε] [DecidableEq α] : DecidableEq (Except ε α) := fun x y =>
  match x, y with
  | .error e, .error f =>
    if h : e = f then .isTrue (by rw [h]) else .isFalse (by intro hh; cases hh; exact h rfl)
  | .ok a, .ok b =>
    if h : a = b then .isTrue (by rw [h]) else .isFalse (by intro hh; cases hh; exact h rfl)
  | .error _, .ok _ => .isFalse (by intro hh; cases hh)
  | .ok _, .error _ => .isFalse (by intro hh; cases hh)

/-! ### Structural string primitives

Python string semantics on the code-point list of a `String`; these
avoid the well-founded recursions of the core `String` API so that
every theorem can be settled by kernel reduction. -/

/-- Whitespace stripped by Python `str.strip()` (ASCII part). -/
def isPySpace (c : Char) : Bool :=
  c = ' ' ∨ c = '\t' ∨ c = '\n' ∨ c = '\x0d' ∨ c = '\x0b' ∨ c = '\x0c'

/-- Python `str.strip()`. -/
def pyStrip (s : String) : String :=
  String.mk (((s.toList.dropWhile isPySpace).reverse.dropWhile isPySpace).reverse)

/-- ASCII lower-casing of one character. -/
def lowerChar (c : Char) : Char :=
  if 'A' ≤ c ∧ c ≤ 'Z' then Char.ofNat (c.toNat + 32) else c

/-- ASCII upper-casing of one character. -/
def upperChar (c : Char) : Char :=
  if 'a' ≤ c ∧ c ≤ 'z' then Char.ofNat (c.toNat - 32) else c

/-- Python `str.lower()` (ASCII). -/
def pyLower (s : String) : String := String.mk (s.toList.map lowerChar)

/-- Python `str.upper()` (ASCII). -/
def pyUpper (s : String) : String := String.mk (s.toList.map upperChar)

/-- Python `s[:k]`. -/
def strTake (s : String) (k : ℕ) : String := String.mk (s.toList.take k)

/-- Python `len(s)`. -/
def strLen (s : String) : ℕ := s.toList.length

/-- Python `s.endswith('+')`. -/
def lastIsPlus (s : String) : Bool :=
  match s.toList.getLast? with
  | some c => c = '+'
  | Option.none => false

/-- Code-point lexicographic `≤` on character lists (Python string
comparison). -/
def listLe : List Char → List Char → Bool
  | [], _ => true
  | _ :: _, [] => false
  | a :: as, b :: bs => if a < b then true else if b < a then false else listLe as bs

/-- Python `s <= t` on strings. -/
def strLe (a b : String) : Bool := listLe a.toList b.toList

/-! ### String formatting (Python `str(...)`) -/

/-- Left-pad a string with zeros to the given length. -/
def padZeros (k : ℕ) (s : String) : String :=
  if s.length < k then String.mk (List.replicate (k - s.length) '0') ++ s else s

/-- Value of an ASCII digit list. -/
def natOfDigits (cs : List Char) : ℕ :=
  cs.foldl (fun a c => a * 10 + (c.toNat - 48)) 0

/-- Decimal expansion of `q` with a non-trivial denominator: the least
number `k ≤ 40` of fractional digits that is exact (every finite
Python float is a dyadic rational, so for genuine float values the
search succeeds; the fallback arm is never reached by them). -/
def ratFracRepr (q : PyRat) : ℕ → ℕ → String
  | 0, _ => toString q.n ++ "/" ++ toString q.d
  | fuel + 1, k =>
    if 10 ^ k % q.d = 0 then
      let digits := q.n.natAbs * (10 ^ k / q.d)
      let sign := if q.n < 0 then "-" else ""
      sign ++ toString (digits / 10 ^ k) ++ "." ++ padZeros k (toString (digits % 10 ^ k))
    else ratFracRepr q fuel (k + 1)

/-- Python `repr`/`str` of a float. -/
def pyFloatRepr : PyFloat → String
  | .nan => "nan"
  | .inf => "inf"
  | .neginf => "-inf"
  | .finite q => if q.d = 1 then toString q.n ++ ".0" else ratFracRepr q 41 1

/-- A calendar date formatted `%Y-%m-%d` (zero-padded). -/
def fmtYMD (y m d : ℕ) : String :=
  padZeros 4 (toString y) ++ "-" ++ padZeros 2 (toString m) ++ "-" ++ padZeros 2 (toString d)

/-- Python `str(val)` for a cell value. -/
def pyStr : CellValue → String
  | .none => "None"
  | .str s => s
  | .int n => toString n
  | .float f => pyFloatRepr f
  | .bool b => if b then "True" else "False"
  | .date y m d => fmtYMD y m d
  | .datetime y m d hh mi ss =>
      fmtYMD y m d ++ " " ++ padZeros 2 (toString hh) ++ ":" ++ padZeros 2 (toString mi)
        ++ ":" ++ padZeros 2 (toString ss)

/-! ### Python `float(string)` -/

/-- Auxiliary underscore check: every `_` sits between two digits.
`p` is the previous character. -/
def usOkAux : Char → List Char → Bool
  | _, [] => true
  | p, c :: rest =>
    if c = '_' then
      (p.isDigit && (match rest with | r :: _ => r.isDigit | [] => false)) && usOkAux c rest
    else usOkAux c rest

/-- Python numeric literals allow `_` only directly between digits. -/
def usOk : List Char → Bool
  | [] => true
  | c :: rest => !(c = '_') && usOkAux c rest

/-- Split a char list at the first `e`/`E`. -/
def splitAtExp : List Char → List Char × Option (List Char)
  | [] => ([], Option.none)
  | c :: rest =>
    if c = 'e' ∨ c = 'E' then ([], some rest)
    else
      let r := splitAtExp rest
      (c :: r.1, r.2)

/-- Split a char list at the first `.`; `none` in the second component
means there was no dot. -/
def splitAtDot : List Char → List Char × Option (List Char)
  | [] => ([], Option.none)
  | c :: rest =>
    if c = '.' then ([], some rest)
    else
      let r := splitAtDot rest
      (c :: r.1, r.2)

/-- Parse the mantissa `digits[.digits]` (at least one digit overall,
at most one dot) to an exact unnormalized fraction. -/
def parseMantissa (cs : List Char) : Option (ℤ × ℕ) :=
  let p := splitAtDot cs
  let intPart := p.1
  let fracPart := (p.2).getD []
  if fracPart.any (· = '.') then Option.none
  else if !(intPart.all Char.isDigit) ∨ !(fracPart.all Char.isDigit) then Option.none
  else if intPart.isEmpty ∧ fracPart.isEmpty then Option.none
  else
    some ((natOfDigits intPart * 10 ^ fracPart.length + natOfDigits fracPart : ℕ),
          10 ^ fracPart.length)

/-- Parse the exponent part: optional sign, then nonempty digits. -/
def parseExpPart (cs : List Char) : Option ℤ :=
  let signed : Bool × List Char :=
    match cs with
    | '-' :: rest => (true, rest)
    | '+' :: rest => (false, rest)
    | other => (false, other)
  if signed.2.isEmpty ∨ !(signed.2.all Char.isDigit) then Option.none
  else some (if signed.1 then -(natOfDigits signed.2 : ℤ) else (natOfDigits signed.2 : ℤ))

/-- Apply a decimal exponent to an exact fraction.  Exponents beyond
10^4 in magnitude are classified by sign alone (far past the IEEE
overflow/underflow cutoffs for any plausible mantissa). -/
def applyExp (nd : ℤ × ℕ) (e : ℤ) : ℤ × ℕ :=
  if e > 9999 then
    (if nd.1 = 0 then (0, 1) else (nd.1.sign * (((2 : ℕ) ^ 1030 : ℕ) : ℤ), 1))
  else if e < -9999 then
    (if nd.1 = 0 then (0, 1) else (nd.1.sign, (2 : ℕ) ^ 1090))
  else if 0 ≤ e then (nd.1 * (((10 : ℕ) ^ e.toNat : ℕ) : ℤ), nd.2)
  else (nd.1, nd.2 * (10 : ℕ) ^ (-e).toNat)

/-- Parse an unsigned numeric literal (underscores removed) into an
exact unnormalized fraction. -/
def parseNumeric (cs : List Char) : Option (ℤ × ℕ) :=
  let sp := splitAtExp cs
  match parseMantissa sp.1 with
  | Option.none => Option.none
  | some m =>
    match sp.2 with
    | Option.none => some m
    | some expPart =>
      match parseExpPart expPart with
      | Option.none => Option.none
      | some e => some (applyExp m e)

/-- Classify an exact fraction as a Python float: overflow to an
infinity at 2^1024, underflow to zero below 2^-1075, otherwise the
normalized finite value. -/
def classifyFinite (n : ℤ) (d : ℕ) : PyFloat :=
  if (2 : ℕ) ^ 1024 * d ≤ n.natAbs then
    (if n < 0 then .neginf else .inf)
  else if n.natAbs * (2 : ℕ) ^ 1075 ≤ d ∧ n ≠ 0 then .finite (qNorm 0 1)
  else .finite (qNorm n d)

/-- Python `float(s)` on a string; `Option.none` models `ValueError`. -/
def pyFloatOfString (s : String) : Option PyFloat :=
  let cs := (pyStrip s).toList
  let sg : Bool × List Char :=
    match cs with
    | '-' :: rest => (true, rest)
    | '+' :: rest => (false, rest)
    | other => (false, other)
  let low := sg.2.map lowerChar
  if low = "inf".toList ∨ low = "infinity".toList then
    some (if sg.1 then .neginf else .inf)
  else if low = "nan".toList then some .nan
  else if !(usOk sg.2) then Option.none
  else
    match parseNumeric (sg.2.filter (fun c => !(c = '_'))) with
    | Option.none => Option.none
    | some nd => some (classifyFinite (if sg.1 then -nd.1 else nd.1) nd.2)

/-- Python `float(val)` on a cell value; `Except.error ()` models the
`ValueError`/`TypeError` that `_safe_*` catch. -/
def pyFloatOfCell : CellValue → Except Unit PyFloat
  | .none => .error ()
  | .str s =>
    match pyFloatOfString s with
    | some f => .ok f
    | Option.none => .error ()
  | .int n => .ok (.finite (qNorm n 1))
  | .float f => .ok f
  | .bool b => .ok (.finite (qNorm (if b then 1 else 0) 1))
  | .date _ _ _ => .error ()
  | .datetime _ _ _ _ _ _ => .error ()

/-- Is the cell a float NaN?  (`isinstance(val, float) and val != val`) -/
def isNaNCell : CellValue → Bool
  | .float .nan => true
  | _ => false

/-- `val is None or val == ''` (Python `==` against the empty string is
only true for the empty string itself). -/
def pyNoneOrEmpty : CellValue → Bool
  | .none => true
  | .str s => s = ""
  | _ => false

/-! ### The `_safe_*` helpers -/

/-- `_safe_str(val)` with the default `''`. -/
def safeStr (val : CellValue) : String :=
  match val with
  | .none => ""
  | v => if isNaNCell v then "" else pyStrip (pyStr v)

/-- `_safe_numeric(val)` with the default `None`. -/
def safeNumeric (val : CellValue) : Option PyFloat :=
  match val with
  | .none => Option.none
  | v =>
    if isNaNCell v then Option.none
    else
      match pyFloatOfCell v with
      | .ok f => some f
      | .error _ => Option.none

/-- `_safe_int(val)` with the default `None`.  `int(float(val))` raises
an uncaught `OverflowError` when `float(val)` is infinite; `ValueError`
and `TypeError` are caught and give the default. -/
def safeInt (val : CellValue) : Except PyError (Option ℤ) :=
  match val with
  | .none => .ok Option.none
  | v =>
    if isNaNCell v then .ok Option.none
    else
      match pyFloatOfCell v with
      | .error _ => .ok Option.none
      | .ok .nan => .ok Option.none
      | .ok .inf => .error .overflowError
      | .ok .neginf => .error .overflowError
      | .ok (.finite q) => .ok (some (pyTrunc q))

/-! ### `parse_rank_value` -/

/-- `parse_rank_value(val)`: classify one rank cell.  A cell whose
string form parses to an infinite float makes `int(float(val_str))`
raise an `OverflowError` that the `except (ValueError, TypeError)`
clause does not catch. -/
def parse_rank_value (val : CellValue) : Except PyError (Option ℤ × Bool) :=
  if pyNoneOrEmpty val then .ok (Option.none, false)
  else if isNaNCell val then .ok (Option.none, false)
  else
    let val_str := pyStrip (pyStr val)
    if val_str = "" then .ok (Option.none, false)
    else if lastIsPlus val_str then .ok (Option.none, true)
    else
      match pyFloatOfString val_str with
      | Option.none => .ok (Option.none, false)
      | some .nan => .ok (Option.none, false)
      | some .inf => .error .overflowError
      | some .neginf => .error .overflowError
      | some (.finite q) =>
        let rank := pyTrunc q
        if 1 ≤ rank ∧ rank ≤ 306 then .ok (some rank, false)
        else .ok (Option.none, true)

/-! ### `detect_date_columns` -/

/-- The regex `^\d{4}-\d{2}-\d{2}$` (full match on an already-stripped
string). -/
def matchesDatePattern (s : String) : Bool :=
  match s.toList with
  | [a, b, c, d, h1, e, f, h2, g, h] =>
    a.isDigit && b.isDigit && c.isDigit && d.isDigit && h1 = '-' &&
    e.isDigit && f.isDigit && h2 = '-' && g.isDigit && h.isDigit
  | _ => false

/-- `hasattr(col, 'strftime')`: date and datetime objects. -/
def hasStrftime : CellValue → Bool
  | .date _ _ _ => true
  | .datetime _ _ _ _ _ _ => true
  | _ => false

/-- `col.strftime('%Y-%m-%d')` for a date/datetime cell. -/
def strftimeYMD : CellValue → String
  | .date y m d => fmtYMD y m d
  | .datetime y m d _ _ _ => fmtYMD y m d
  | _ => ""

/-- Association-list update with Python-dict semantics: replace in
place when the key is present, append otherwise. -/
def dset {K V : Type} [DecidableEq K] (d : List (K × V)) (k : K) (v : V) : List (K × V) :=
  if d.any (fun p => decide (p.1 = k)) then
    d.map (fun p => if p.1 = k then (k, v) else p)
  else d ++ [(k, v)]

/-- Association-list lookup (`dict.get`). -/
def dget {K V : Type} [DecidableEq K] (d : List (K × V)) (k : K) : Option V :=
  match d.find? (fun p => decide (p.1 = k)) with
  | some p => some p.2
  | Option.none => Option.none

/-- The classification cascade of `detect_date_columns` for one header
cell. -/
def normalizeDateCell (col : CellValue) : Option String :=
  let col_str := pyStrip (pyStr col)
  if matchesDatePattern col_str then some col_str
  else if hasStrftime col then some (strftimeYMD col)
  else if decide (10 ≤ strLen col_str) && matchesDatePattern (strTake col_str 10) then
    some (strTake col_str 10)
  else Option.none

/-- `detect_date_columns(columns)`: the list of normalized date strings
(in header order, duplicates kept) and the map from normalized string
back to the original column value (last writer wins). -/
def detect_date_columns (columns : List CellValue) : List String × List (String × CellValue) :=
  columns.foldl
    (fun acc col =>
      match normalizeDateCell col with
      | some n => (acc.1 ++ [n], dset acc.2 n col)
      | Option.none => acc)
    ([], [])

/-! ### Data model of `parse_excel` -/

/-- The entity (keyword) business key: `(asin.upper(), keyword.lower())`. -/
abbrev EntityKey := String × String

/-- The measurement key: `(asin.upper(), keyword.lower(), date)`. -/
abbrev RankKey := String × String × String

/-- One keyword record (`keyword_map` value / `keyword_records`
element), fields in source order. -/
structure KwRecord where
  marketplace_id : String
  child_asin : String
  keyword : String
  sku : Option String
  title : Option String
  tracked : Bool
  sales : Option PyFloat
  acos : Option PyFloat
  conversion : Option PyFloat
  spent : Option PyFloat
  orders : Option ℤ
  units : Option ℤ
  clicks : Option ℤ
  query_volume : Option ℤ
  conversion_delta : Option PyFloat
  market_conversion : Option PyFloat
  asin_conversion : Option PyFloat
  purchase_share : Option PyFloat
  metrics_period_start : Option String
  metrics_period_end : Option String
  import_id : String
  updated_at : String
deriving DecidableEq, Repr

/-- One merged rank record (`merged_ranks` value). -/
structure RankRecord where
  asin : String
  keyword : String
  date : String
  organic_rank : Option ℤ
  organic_out_of_range : Bool
  sponsored_rank : Option ℤ
  sponsored_out_of_range : Bool
deriving DecidableEq, Repr

/-- The `stats` dictionary. -/
structure Stats where
  keyword_count : ℕ
  keyword_total_parsed : ℕ
  keyword_filtered : ℕ
  rank_entries : ℕ
  organic_ranks : ℕ
  sponsored_ranks : ℕ
  date_range_start : Option String
  date_range_end : Option String
  date_count : ℕ
deriving DecidableEq, Repr

/-- The result tuple of `parse_excel`. -/
abbrev ParseOutput := List KwRecord × List (RankKey × RankRecord) × List String × Stats

/-- Header-derived context shared by both sheet passes. -/
structure Ctx where
  col_indices : List (String × ℕ)
  date_col_map : List (String × CellValue)
  sorted_dates : List String
deriving DecidableEq, Repr

/-- The 17 fixed columns of every ScaleInsights file. -/
def FIXED_COLUMNS : List String :=
  ["ASIN", "SKU", "Title", "Keyword", "Tracked",
   "Sales", "ACOS", "Conversion", "Spent", "Orders",
   "Units", "Clicks", "Query Volume", "Conversion Delta",
   "Market Conversion", "Asin Conversion", "Purchase Share"]

/-! ### Header phase (`mkCtx`) -/

/-- Python truthiness of a sheet variable (`None` and `[]` are falsy). -/
def truthy (sd : Option (List (List CellValue))) : Bool :=
  match sd with
  | some (_ :: _) => true
  | _ => false

/-- The data rows of a sheet: everything after the header row; a falsy
sheet contributes no rows (`if not sheet_data: continue`). -/
def sheetRows (sd : Option (List (List CellValue))) : List (List CellValue) :=
  match sd with
  | some (_ :: rest) => rest
  | _ => []

/-- `str(h).strip() if h is not None else ''` for one header cell. -/
def headerStr (h : CellValue) : String :=
  match h with
  | .none => ""
  | v => pyStrip (pyStr v)

/-- `for i, h in enumerate(headers): col_indices[h] = i`. -/
def buildColIndices (headers : List String) : List (String × ℕ) :=
  headers.enum.foldl (fun d p => dset d p.2 p.1) []

/-- The required identity columns absent from the index. -/
def missingRequired (ci : List (String × ℕ)) : List String :=
  (FIXED_COLUMNS.take 5).filter (fun fc => (dget ci fc).isNone)

/-- Add the canonical date strings to the column index by re-resolving
through the original header value. -/
def addDateIndices (ci : List (String × ℕ)) (dcm : List (String × CellValue)) : List (String × ℕ) :=
  dcm.foldl
    (fun acc p =>
      if (dget acc p.1).isSome then acc
      else
        match dget acc (pyStr p.2) with
        | some i => dset acc p.1 i
        | Option.none => acc)
    ci

/-- Python `sorted` on strings.  (Python's sort is a stable mergesort,
but on strings ties are identical elements, so any comparison sort
computes the same list; insertion sort keeps the definition
structurally recursive and kernel-reducible.) -/
def sortStrings (l : List String) : List String :=
  List.insertionSort (fun a b => strLe a b = true) l

/-- The validation/header phase of `parse_excel`: everything up to and
including `sorted_dates = sorted(date_columns)`. -/
def mkCtx (organic_data sponsored_data : Option (List (List CellValue))) : Except PyError Ctx :=
  if organic_data.isNone ∧ sponsored_data.isNone then .error .noSheets
  else
    let primary_data : Option (List (List CellValue)) :=
      if truthy organic_data then organic_data else sponsored_data
    match primary_data with
    | Option.none => .error .emptyPrimary
    | some pd =>
      if pd.length < 2 then .error .emptyPrimary
      else
        let headers := pd.headI.map headerStr
        let ci0 := buildColIndices headers
        let missing := missingRequired ci0
        if !missing.isEmpty then .error (.missingColumns missing)
        else
          let dd := detect_date_columns (headers.map CellValue.str)
          if dd.1.isEmpty then .error .noDateColumns
          else
            .ok { col_indices := addDateIndices ci0 dd.2,
                  date_col_map := dd.2,
                  sorted_dates := sortStrings dd.1 }

/-! ### Shared row readers -/

/-- `col_indices.get(name, dflt)`. -/
def colIdx (ctx : Ctx) (name : String) (dflt : ℕ) : ℕ :=
  (dget ctx.col_indices name).getD dflt

/-- `row[i]`, raising `IndexError` when out of bounds. -/
def rowCell (row : List CellValue) (i : ℕ) : Except PyError CellValue :=
  match row.get? i with
  | some c => .ok c
  | Option.none => .error .indexError

/-- `row[col_indices.get(name, dflt)]`. -/
def readCell (ctx : Ctx) (row : List CellValue) (name : String) (dflt : ℕ) : Except PyError CellValue :=
  rowCell row (colIdx ctx name dflt)

/-- `_safe_str(row[col_indices.get(name, dflt)])`. -/
def readStr (ctx : Ctx) (row : List CellValue) (name : String) (dflt : ℕ) : Except PyError String :=
  match readCell ctx row name dflt with
  | .error e => .error e
  | .ok c => .ok (safeStr c)

/-- `_safe_numeric(row[col_indices.get(name, dflt)])`. -/
def readNum (ctx : Ctx) (row : List CellValue) (name : String) (dflt : ℕ) : Except PyError (Option PyFloat) :=
  match readCell ctx row name dflt with
  | .error e => .error e
  | .ok c => .ok (safeNumeric c)

/-- `_safe_int(row[col_indices.get(name, dflt)])`. -/
def readInt (ctx : Ctx) (row : List CellValue) (name : String) (dflt : ℕ) : Except PyError (Option ℤ) :=
  match readCell ctx row name dflt with
  | .error e => .error e
  | .ok c => safeInt c

/-- Read ASIN and Keyword from a row (lines shared verbatim by both
sheet loops).  `Option.none` means the row is skipped (either value
empty after trimming); otherwise gives the entity key and the raw
(trimmed but case-preserving) pair. -/
def entityKeyOfRow (ctx : Ctx) (row : List CellValue) :
    Except PyError (Option (EntityKey × String × String)) :=
  match readCell ctx row "ASIN" 0 with
  | .error e => .error e
  | .ok asinCell =>
    match readCell ctx row "Keyword" 3 with
    | .error e => .error e
    | .ok kwCell =>
      let asin := safeStr asinCell
      let kw := safeStr kwCell
      if asin = "" ∨ kw = "" then .ok Option.none
      else .ok (some ((pyUpper asin, pyLower kw), asin, kw))

/-! ### Entity extraction pass -/

/-- `s or None`. -/
def strOrNone (s : String) : Option String :=
  if s = "" then Option.none else some s

/-- Build one keyword record from a row (the dict literal of the
entity loop, field reads in source evaluation order). -/
def buildKwRecord (ctx : Ctx) (mid iid now : String) (row : List CellValue)
    (asin kw : String) : Except PyError KwRecord := do
  let trackedS ← readStr ctx row "Tracked" 4
  let tracked_val := pyLower trackedS
  let sku ← readStr ctx row "SKU" 1
  let title ← readStr ctx row "Title" 2
  let sales ← readNum ctx row "Sales" 5
  let acos ← readNum ctx row "ACOS" 6
  let conversion ← readNum ctx row "Conversion" 7
  let spent ← readNum ctx row "Spent" 8
  let orders ← readInt ctx row "Orders" 9
  let units ← readInt ctx row "Units" 10
  let clicks ← readInt ctx row "Clicks" 11
  let query_volume ← readInt ctx row "Query Volume" 12
  let conversion_delta ← readNum ctx row "Conversion Delta" 13
  let market_conversion ← readNum ctx row "Market Conversion" 14
  let asin_conversion ← readNum ctx row "Asin Conversion" 15
  let purchase_share ← readNum ctx row "Purchase Share" 16
  .ok { marketplace_id := mid, child_asin := asin, keyword := kw,
        sku := strOrNone sku, title := strOrNone (strTake title 500),
        tracked := tracked_val == "yes",
        sales, acos, conversion, spent, orders, units, clicks,
        query_volume, conversion_delta, market_conversion,
        asin_conversion, purchase_share,
        metrics_period_start := ctx.sorted_dates.head?,
        metrics_period_end := ctx.sorted_dates.getLast?,
        import_id := iid, updated_at := now }

/-- One iteration of the entity loop body: sponsored rows only insert
new keys, organic rows overwrite unconditionally. -/
def processEntityRow (isOrganic : Bool) (ctx : Ctx) (mid iid now : String)
    (m : List (EntityKey × KwRecord)) (row : List CellValue) :
    Except PyError (List (EntityKey × KwRecord)) :=
  match entityKeyOfRow ctx row with
  | .error e => .error e
  | .ok Option.none => .ok m
  | .ok (some (key, asin, kw)) =>
    if !isOrganic && (dget m key).isSome then .ok m
    else
      match buildKwRecord ctx mid iid now row asin kw with
      | .error e => .error e
      | .ok r => .ok (dset m key r)

/-- The entity loop over one sheet's data rows. -/
def processEntityRows (isOrganic : Bool) (ctx : Ctx) (mid iid now : String) :
    List (List CellValue) → List (EntityKey × KwRecord) →
    Except PyError (List (EntityKey × KwRecord))
  | [], m => .ok m
  | row :: rest, m =>
    match processEntityRow isOrganic ctx mid iid now m row with
    | .error e => .error e
    | .ok m1 => processEntityRows isOrganic ctx mid iid now rest m1

/-- Step 1 of `parse_excel`: sponsored sheet first, then organic. -/
def entityPass (ctx : Ctx) (od sd : Option (List (List CellValue)))
    (mid iid now : String) : Except PyError (List (EntityKey × KwRecord)) :=
  match processEntityRows false ctx mid iid now (sheetRows sd) [] with
  | .error e => .error e
  | .ok m1 => processEntityRows true ctx mid iid now (sheetRows od) m1

/-- Python `spent > 0` on a float value. -/
def pyGtZero : PyFloat → Bool
  | .nan => false
  | .inf => true
  | .neginf => false
  | .finite q => qPos q

/-- The retention filter: `tracked or (spent is not None and spent > 0)`. -/
def keepRecord (kw : KwRecord) : Bool :=
  kw.tracked || (match kw.spent with | some f => pyGtZero f | Option.none => false)

/-- The derived entity key of a stored record. -/
def recKey (kw : KwRecord) : EntityKey :=
  (pyUpper kw.child_asin, pyLower kw.keyword)

/-! ### Measurement merge pass -/

/-- A freshly created merged-rank record. -/
def freshRank (asin kw d : String) : RankRecord :=
  { asin := asin, keyword := kw, date := d,
    organic_rank := Option.none, organic_out_of_range := false,
    sponsored_rank := Option.none, sponsored_out_of_range := false }

/-- Mutable state of the rank loop: the merged dict and the two
counters. -/
structure RankState where
  m : List (RankKey × RankRecord)
  org : ℕ
  spon : ℕ
deriving DecidableEq, Repr

/-- Resolve a canonical date string to a column position: direct
lookup, then lookup of `str(date_col_map.get(date_col, date_col))`. -/
def resolveDateIdx (ctx : Ctx) (date_col : String) : Option ℕ :=
  match dget ctx.col_indices date_col with
  | some i => some i
  | Option.none =>
    dget ctx.col_indices (pyStr ((dget ctx.date_col_map date_col).getD (CellValue.str date_col)))

/-- Write the organic or sponsored facet of a record. -/
def setFacet (isOrganic : Bool) (r : RankRecord) (rank : Option ℤ) (oor : Bool) : RankRecord :=
  if isOrganic then { r with organic_rank := rank, organic_out_of_range := oor }
  else { r with sponsored_rank := rank, sponsored_out_of_range := oor }

/-- Update the map and bump the per-sheet counter. -/
def bumpCount (isOrganic : Bool) (st : RankState) (m1 : List (RankKey × RankRecord)) : RankState :=
  if isOrganic then { m := m1, org := st.org + 1, spon := st.spon }
  else { m := m1, org := st.org, spon := st.spon + 1 }

/-- Inner loop body: one `(row, date_col)` pair. -/
def processRankCell (isOrganic : Bool) (ctx : Ctx) (asin kw : String)
    (row : List CellValue) (st : RankState) (d : String) : Except PyError RankState :=
  match resolveDateIdx ctx d with
  | Option.none => .ok st
  | some idx =>
    if h : idx < row.length then
      match parse_rank_value (row.get ⟨idx, h⟩) with
      | .error e => .error e
      | .ok (rank, oor) =>
        if rank = Option.none ∧ oor = false then .ok st
        else
          let key : RankKey := (pyUpper asin, pyLower kw, d)
          let base := (dget st.m key).getD (freshRank asin kw d)
          .ok (bumpCount isOrganic st (dset st.m key (setFacet isOrganic base rank oor)))
    else .ok st

/-- Inner loop over the sorted date columns for one row. -/
def processRankDates (isOrganic : Bool) (ctx : Ctx) (asin kw : String)
    (row : List CellValue) : List String → RankState → Except PyError RankState
  | [], st => .ok st
  | d :: ds, st =>
    match processRankCell isOrganic ctx asin kw row st d with
    | .error e => .error e
    | .ok st1 => processRankDates isOrganic ctx asin kw row ds st1

/-- One data row of the rank loop. -/
def processRankRow (isOrganic : Bool) (ctx : Ctx) (st : RankState)
    (row : List CellValue) : Except PyError RankState :=
  match entityKeyOfRow ctx row with
  | .error e => .error e
  | .ok Option.none => .ok st
  | .ok (some (_, asin, kw)) =>
    processRankDates isOrganic ctx asin kw row ctx.sorted_dates st

/-- The rank loop over one sheet's data rows. -/
def processRankRows (isOrganic : Bool) (ctx : Ctx) :
    List (List CellValue) → RankState → Except PyError RankState
  | [], st => .ok st
  | row :: rest, st =>
    match processRankRow isOrganic ctx st row with
    | .error e => .error e
    | .ok st1 => processRankRows isOrganic ctx rest st1

/-- Step 2 of `parse_excel`: organic sheet first, then sponsored. -/
def rankPass (ctx : Ctx) (od sd : Option (List (List CellValue))) :
    Except PyError RankState :=
  match processRankRows true ctx (sheetRows od) { m := [], org := 0, spon := 0 } with
  | .error e => .error e
  | .ok st1 => processRankRows false ctx (sheetRows sd) st1

/-! ### The orchestrating function -/

/-- The success-path assembly of the result tuple: retention filter,
cross-filter of the merged ranks, and the stats dictionary. -/
def assemble (ctx : Ctx) (keyword_map : List (EntityKey × KwRecord))
    (st : RankState) : ParseOutput :=
  let all_keywords := keyword_map.map Prod.snd
  let keyword_records := all_keywords.filter keepRecord
  let kept := keyword_records.map recKey
  let merged := st.m.filter (fun p => decide ((p.1.1, p.1.2.1) ∈ kept))
  (keyword_records, merged, ctx.sorted_dates,
   { keyword_count := keyword_records.length,
     keyword_total_parsed := all_keywords.length,
     keyword_filtered := all_keywords.length - keyword_records.length,
     rank_entries := merged.length,
     organic_ranks := st.org,
     sponsored_ranks := st.spon,
     date_range_start := ctx.sorted_dates.head?,
     date_range_end := ctx.sorted_dates.getLast?,
     date_count := ctx.sorted_dates.length })

/-- Everything after the header phase: entity pass, retention filter,
rank pass, cross-filter, stats. -/
def parseBody (ctx : Ctx) (od sd : Option (List (List CellValue)))
    (mid iid now : String) : Except PyError ParseOutput :=
  match entityPass ctx od sd mid iid now with
  | .error e => .error e
  | .ok keyword_map =>
    match rankPass ctx od sd with
    | .error e => .error e
    | .ok st => .ok (assemble ctx keyword_map st)

/-- `parse_excel(file_bytes, marketplace_id, import_id)`, modelled from
the two extracted sheets onward (the temp-file/Calamine plumbing is
I/O glue).  `od`/`sd` are the organic and sponsored sheets (`none` =
sheet absent), `now` is the `datetime.utcnow().isoformat()` reading,
passed explicitly. -/
def parse_excel (od sd : Option (List (List CellValue)))
    (mid iid now : String) : Except PyError ParseOutput :=
  match mkCtx od sd with
  | .error e => .error e
  | .ok ctx => parseBody ctx od sd mid iid now

/-! ### Statement-side predicates (defined from the source functions) -/

/-- Does a data row carry the entity key `p` (non-empty ASIN/Keyword
whose normalized pair is `p`)? -/
def rowKeyB (ctx : Ctx) (p : EntityKey) (row : List CellValue) : Bool :=
  match entityKeyOfRow ctx row with
  | .ok (some (k, _, _)) => decide (k = p)
  | _ => false

/-- Does this row hold a non-trivial rank cell (parseable rank or
out-of-range marker) in the column of canonical date `d`? -/
def cellContributes (ctx : Ctx) (row : List CellValue) (d : String) : Bool :=
  match resolveDateIdx ctx d with
  | some idx =>
    if h : idx < row.length then
      match parse_rank_value (row.get ⟨idx, h⟩) with
      | .ok (r, oor) => r.isSome || oor
      | .error _ => false
    else false
  | Option.none => false

/-- Does this row contribute a measurement for key `k`: it carries the
entity-key part of `k`, `k`'s date is one of the detected date
columns, and the corresponding cell is non-trivial? -/
def rowContributes (ctx : Ctx) (k : RankKey) (row : List CellValue) : Bool :=
  rowKeyB ctx (k.1, k.2.1) row && decide (k.2.2 ∈ ctx.sorted_dates) &&
    cellContributes ctx row k.2.2

/-- The first row, in measurement pass order (organic rows before
sponsored rows), that contributes a measurement for key `k`. -/
def firstContribRow (ctx : Ctx) (od sd : Option (List (List CellValue)))
    (k : RankKey) : Option (List CellValue) :=
  match (sheetRows od).find? (fun row => rowContributes ctx k row) with
  | some row => some row
  | Option.none => (sheetRows sd).find? (fun row => rowContributes ctx k row)

/-- Overwrite the `updated_at` timestamp of a record. -/
def setUA (t : String) (r : KwRecord) : KwRecord := { r with updated_at := t }

/-- Erase the `updated_at` timestamps of the entity records of a
result (the only clock-dependent field of the whole output). -/
def scrubOutput (o : ParseOutput) : ParseOutput :=
  (o.1.map (setUA ""), o.2.1, o.2.2.1, o.2.2.2)

/-- `scrubOutput` on a possibly-failed result. -/
def scrubResult : Except PyError ParseOutput → Except PyError ParseOutput
  | .error e => .error e
  | .ok o => .ok (scrubOutput o)

/-- Overwrite the `updated_at` timestamps throughout an entity map. -/
def mapUA (t : String) (m : List (EntityKey × KwRecord)) : List (EntityKey × KwRecord) :=
  m.map (fun p => (p.1, setUA t p.2))

/-! ### Concrete sample documents (witness inputs) -/

/-- A full header row: the 17 fixed columns and two date columns given
out of calendar order. -/
def sampleHeader : List CellValue :=
  [.str "ASIN", .str "SKU", .str "Title", .str "Keyword", .str "Tracked",
   .str "Sales", .str "ACOS", .str "Conversion", .str "Spent", .str "Orders",
   .str "Units", .str "Clicks", .str "Query Volume", .str "Conversion Delta",
   .str "Market Conversion", .str "Asin Conversion", .str "Purchase Share",
   .str "2025-01-02", .str "2025-01-01"]

/-- A data row with the five identity cells, a spend cell, and the two
date cells; all other metric cells empty. -/
def sampleRow (asin sku title kw tracked spent d1 d2 : String) : List CellValue :=
  [.str asin, .str sku, .str title, .str kw, .str tracked,
   .str "", .str "", .str "", .str spent, .str "",
   .str "", .str "", .str "", .str "",
   .str "", .str "", .str "",
   .str d1, .str d2]

/-- Sample organic sheet: a tracked keyword (also present in the
sponsored sheet under different casing), an untracked zero-spend
keyword with a valid rank, and a duplicated key (two rows). -/
def sampleOrganic : Option (List (List CellValue)) :=
  some [sampleHeader,
    sampleRow "A1" "sku1" "TitleOrg" "kw one" "Yes" "" "5" "97+",
    sampleRow "B2" "" "" "kw two" "No" "0" "3" "",
    sampleRow "D4" "o1" "T" "kw4" "Yes" "" "1" "",
    sampleRow "D4" "o2" "T" "kw4" "Yes" "" "2" ""]

/-- Sample sponsored sheet: the tracked key again (different casing
and Title), plus a duplicated untracked key with spend. -/
def sampleSponsored : Option (List (List CellValue)) :=
  some [sampleHeader,
    sampleRow "a1" "sku2" "TitleSpon" "KW One" "No" "12.5" "7" "",
    sampleRow "C3" "s1" "T" "kw3" "No" "1" "4" "",
    sampleRow "C3" "s2" "T" "kw3" "No" "1" "6" ""]

/-- A sponsored sheet whose rows are narrower than the Keyword column
position resolved from the organic header: reading `row[3]` raises
`IndexError`. -/
def narrowSponsored : Option (List (List CellValue)) :=
  some [[.str "ASIN", .str "SKU"], [.str "A", .str "s"]]

/-- An organic sheet with an `inf` string in the Orders column:
`_safe_int` raises an uncaught `OverflowError`. -/
def infOrdersOrganic : Option (List (List CellValue)) :=
  some [sampleHeader,
    [.str "A1", .str "sku1", .str "T", .str "kw", .str "Yes",
     .str "", .str "", .str "", .str "", .str "inf",
     .str "", .str "", .str "", .str "",
     .str "", .str "", .str "",
     .str "1", .str ""]]

/-- The header context computed from the sample document. -/
def sampleCtx : Ctx :=
  { col_indices :=
      [("ASIN", 0), ("SKU", 1), ("Title", 2), ("Keyword", 3), ("Tracked", 4),
       ("Sales", 5), ("ACOS", 6), ("Conversion", 7), ("Spent", 8), ("Orders", 9),
       ("Units", 10), ("Clicks", 11), ("Query Volume", 12), ("Conversion Delta", 13),
       ("Market Conversion", 14), ("Asin Conversion", 15), ("Purchase Share", 16),
       ("2025-01-02", 17), ("2025-01-01", 18)],
    date_col_map := [("2025-01-02", .str "2025-01-02"), ("2025-01-01", .str "2025-01-01")],
    sorted_dates := ["2025-01-01", "2025-01-02"] }

/-! ## Lemmas

### Association lists -/

theorem dget_nil {K V : Type} [DecidableEq K] (k : K) :
    dget ([] : List (K × V)) k = Option.none := rfl

theorem dget_cons {K V : Type} [DecidableEq K] (a : K) (b : V) (t : List (K × V)) (k : K) :
    dget ((a, b) :: t) k = if a = k then some b else dget t k := by
  by_cases h : a = k <;> simp [dget, List.find?_cons, h]

theorem keys_replace {K V : Type} [DecidableEq K] (d : List (K × V)) (k : K) (v : V) :
    (d.map (fun p => if p.1 = k then (k, v) else p)).map Prod.fst = d.map Prod.fst := by
  induction d with
  | nil => rfl
  | cons p t ih => by_cases hp : p.1 = k <;> simp [hp, ih]

/-- Keys of `dset`: unchanged when the key is present, appended when
absent. -/
theorem keys_dset {K V : Type} [DecidableEq K] (d : List (K × V)) (k : K) (v : V) :
    (dset d k v).map Prod.fst =
      if (d.any (fun p => decide (p.1 = k))) then d.map Prod.fst
      else d.map Prod.fst ++ [k] := by
  by_cases h : d.any (fun p => decide (p.1 = k))
  · rw [if_pos h]
    simp only [dset, h, if_true]
    exact keys_replace d k v
  · rw [if_neg h]
    simp only [dset, h, if_false]
    simp

theorem hasKey_iff_mem {K V : Type} [DecidableEq K] (d : List (K × V)) (k : K) :
    d.any (fun p => decide (p.1 = k)) = true ↔ k ∈ d.map Prod.fst := by
  rw [List.any_eq_true]
  constructor
  · rintro ⟨p, hp, hd⟩
    exact List.mem_map.mpr ⟨p, hp, by simpa using hd⟩
  · intro hm
    rcases List.mem_map.mp hm with ⟨p, hp, he⟩
    exact ⟨p, hp, by simpa using he⟩

theorem dget_isSome_iff_mem {K V : Type} [DecidableEq K] (d : List (K × V)) (k : K) :
    (dget d k).isSome = true ↔ k ∈ d.map Prod.fst := by
  induction d with
  | nil => simp [dget_nil]
  | cons p t ih =>
    rcases p with ⟨a, b⟩
    rw [dget_cons]
    by_cases h : a = k
    · simp [h]
    · rw [if_neg h]
      simp only [List.map_cons, List.mem_cons]
      rw [ih]
      constructor
      · exact Or.inr
      · rintro (he | hm)
        · exact absurd he.symm h
        · exact hm

theorem dget_eq_none_of_not_hasKey {K V : Type} [DecidableEq K] {d : List (K × V)} {k : K}
    (h : ¬ d.any (fun p => decide (p.1 = k)) = true) : dget d k = Option.none := by
  cases hd : dget d k with
  | none => rfl
  | some w =>
    exact absurd ((hasKey_iff_mem d k).mpr
      ((dget_isSome_iff_mem d k).mp (by simp [hd]))) h

theorem dget_replace {K V : Type} [DecidableEq K] (d : List (K × V)) (k k' : K) (v : V) :
    dget (d.map (fun p => if p.1 = k then (k, v) else p)) k' =
      if k' = k then (if d.any (fun p => decide (p.1 = k)) then some v else Option.none)
      else dget d k' := by
  induction d with
  | nil => by_cases h : k' = k <;> simp [dget_nil, h]
  | cons p t ih =>
    rcases p with ⟨a, b⟩
    by_cases hak : a = k
    · subst hak
      by_cases h' : a = k'
      · subst h'
        simp [dget_cons, List.any_cons]
      · have hka : ¬ k' = a := fun hh => h' hh.symm
        simp [dget_cons, List.any_cons, h', hka, ih]
    · by_cases h' : a = k'
      · have hkk : ¬ k' = k := fun hh => hak (h'.trans hh)
        simp [dget_cons, List.any_cons, h', hkk, hak]
      · by_cases hk : k' = k
        · subst hk
          have hd : (decide (a = k') : Bool) = false := decide_eq_false hak
          simp only [List.map_cons, List.any_cons, hd, Bool.false_or]
          simp [dget_cons, h', ih]
        · simp [dget_cons, List.any_cons, h', hak, hk, ih]

theorem dget_append_single {K V : Type} [DecidableEq K] (d : List (K × V)) (k k' : K) (v : V) :
    dget (d ++ [(k, v)]) k' =
      match dget d k' with
      | some w => some w
      | Option.none => if k = k' then some v else Option.none := by
  induction d with
  | nil => simp [dget_cons, dget_nil]
  | cons p t ih =>
    rcases p with ⟨a, b⟩
    simp only [List.cons_append, dget_cons]
    by_cases h' : a = k' <;> simp [h', ih]

/-- The fundamental lookup/update law. -/
theorem dget_dset {K V : Type} [DecidableEq K] (d : List (K × V)) (k k' : K) (v : V) :
    dget (dset d k v) k' = if k' = k then some v else dget d k' := by
  by_cases h : d.any (fun p => decide (p.1 = k))
  · simp only [dset, if_pos h]
    rw [dget_replace]
    by_cases hk : k' = k <;> simp [hk, h]
  · simp only [dset, if_neg h]
    rw [dget_append_single]
    by_cases hk : k' = k
    · subst hk
      rw [dget_eq_none_of_not_hasKey h]
    · have hkk : ¬ k = k' := fun hh => hk hh.symm
      cases hd : dget d k' <;> simp [hk, hkk]

theorem nodup_keys_dset {K V : Type} [DecidableEq K] (d : List (K × V)) (k : K) (v : V)
    (h : (d.map Prod.fst).Nodup) : ((dset d k v).map Prod.fst).Nodup := by
  rw [keys_dset]
  by_cases hk : d.any (fun p => decide (p.1 = k))
  · simpa [hk] using h
  · have hnm : k ∉ d.map Prod.fst := fun hm => hk ((hasKey_iff_mem d k).mpr hm)
    simp only [hk, if_false]
    refine List.Nodup.append h (List.nodup_singleton k) ?_
    intro x hx hx'
    simp only [List.mem_singleton] at hx'
    exact hnm (hx' ▸ hx)

/-- Entries of `dset` come from the update or from the original list. -/
theorem mem_dset {K V : Type} [DecidableEq K] {d : List (K × V)} {k k' : K} {v v' : V}
    (h : (k', v') ∈ dset d k v) : (k' = k ∧ v' = v) ∨ (k', v') ∈ d := by
  by_cases hk : d.any (fun p => decide (p.1 = k)) <;>
    simp only [dset, hk, if_true, if_false] at h
  · rcases List.mem_map.mp h with ⟨p, hp, he⟩
    by_cases hpk : p.1 = k
    · rw [if_pos hpk] at he
      cases he
      exact Or.inl ⟨rfl, rfl⟩
    · rw [if_neg hpk] at he
      exact Or.inr (he ▸ hp)
  · rcases List.mem_append.mp h with hm | hm
    · exact Or.inr hm
    · simp only [List.mem_singleton, Prod.mk.injEq] at hm
      exact Or.inl hm

/-- A successful lookup is a member. -/
theorem mem_of_dget {K V : Type} [DecidableEq K] {d : List (K × V)} {k : K} {v : V}
    (h : dget d k = some v) : (k, v) ∈ d := by
  induction d with
  | nil => simp [dget_nil] at h
  | cons p t ih =>
    rcases p with ⟨a, b⟩
    rw [dget_cons] at h
    by_cases ha : a = k
    · subst ha
      rw [if_pos rfl] at h
      cases h
      exact List.mem_cons_self _ _
    · rw [if_neg ha] at h
      exact List.mem_cons_of_mem _ (ih h)

/-- Under distinct keys, membership determines the lookup. -/
theorem dget_of_mem {K V : Type} [DecidableEq K] {d : List (K × V)} {k : K} {v : V}
    (hnd : (d.map Prod.fst).Nodup) (h : (k, v) ∈ d) : dget d k = some v := by
  induction d with
  | nil => simp at h
  | cons p t ih =>
    rcases p with ⟨a, b⟩
    simp only [List.map_cons, List.nodup_cons] at hnd
    rcases List.mem_cons.mp h with he | hm
    · cases he
      simp [dget_cons]
    · have hak : ¬ a = k := by
        intro hh
        exact hnd.1 (hh ▸ List.mem_map.mpr ⟨(k, v), hm, rfl⟩)
      rw [dget_cons, if_neg hak]
      exact ih hnd.2 hm

/-! ### String order bridge -/

theorem listLe_iff (as bs : List Char) : listLe as bs = true ↔ ¬ bs.lt as := by
  induction as generalizing bs with
  | nil =>
    constructor
    · intro _ hlt
      cases hlt
    · intro _
      rfl
  | cons a as ih =>
    cases bs with
    | nil =>
      simp only [listLe]
      constructor
      · intro h
        cases h
      · intro h
        exact absurd (List.lt.nil a as) h
    | cons b bs =>
      simp only [listLe]
      rcases lt_trichotomy a b with hab | hab | hab
      · simp only [if_pos hab, true_iff]
        intro hlt
        cases hlt with
        | head _ _ hba => exact absurd hab (asymm hba)
        | tail h1 h2 _ => exact h2 hab
      · subst hab
        simp only [lt_irrefl, if_false]
        rw [ih bs]
        constructor
        · intro h hlt
          cases hlt with
          | head _ _ hba => exact absurd hba (lt_irrefl a)
          | tail h1 h2 htl => exact h htl
        · intro h hlt
          exact h (List.lt.tail (lt_irrefl a) (lt_irrefl a) hlt)
      · rw [if_neg (asymm hab), if_pos hab]
        constructor
        · intro h
          exact absurd h (by decide)
        · intro h
          exact absurd (List.lt.head _ _ hab) h

theorem strLe_iff (a b : String) : strLe a b = true ↔ a ≤ b := by
  rw [String.le_iff_toList_le, ← not_lt]
  have hlex : (b.toList < a.toList) ↔ (b.toList).lt (a.toList) := by
    rw [List.lt_iff_lex_lt]
    exact Iff.rfl
  rw [hlex]
  exact listLe_iff a.toList b.toList

theorem sortStrings_sorted (l : List String) :
    (sortStrings l).Pairwise (fun a b => a ≤ b) := by
  haveI inst1 : IsTotal String (fun a b : String => strLe a b = true) :=
    ⟨fun a b => by
      rcases le_total a b with h | h
      · exact Or.inl ((strLe_iff a b).mpr h)
      · exact Or.inr ((strLe_iff b a).mpr h)⟩
  haveI inst2 : IsTrans String (fun a b : String => strLe a b = true) :=
    ⟨fun a b c hab hbc =>
      (strLe_iff a c).mpr (le_trans ((strLe_iff a b).mp hab) ((strLe_iff b c).mp hbc))⟩
  exact (List.sorted_insertionSort _ l).imp (fun h => (strLe_iff _ _).mp h)

/-! ### `Except` plumbing -/

theorem exbind_ok {ε α β : Type} {x : Except ε α} {f : α → Except ε β} {b : β}
    (h : (x >>= f) = .ok b) : ∃ a, x = .ok a ∧ f a = .ok b := by
  cases x with
  | error e => exact absurd h (by simp [Bind.bind, Except.bind])
  | ok a => exact ⟨a, rfl, by simpa [Bind.bind, Except.bind] using h⟩

theorem exbind_err {ε α β : Type} {x : Except ε α} {f : α → Except ε β} {e : ε}
    (h : (x >>= f) = .error e) : x = .error e ∨ ∃ a, x = .ok a ∧ f a = .error e := by
  cases x with
  | error e2 => simp_all [Bind.bind, Except.bind]
  | ok a => exact Or.inr ⟨a, rfl, by simpa [Bind.bind, Except.bind] using h⟩

/-! ### Decomposition of the orchestrating function -/

theorem parse_excel_ok {od sd : Option (List (List CellValue))} {mid iid now : String}
    {out : ParseOutput} (h : parse_excel od sd mid iid now = .ok out) :
    ∃ ctx, mkCtx od sd = .ok ctx ∧ parseBody ctx od sd mid iid now = .ok out := by
  unfold parse_excel at h
  cases hc : mkCtx od sd with
  | error e => rw [hc] at h; exact absurd h (by simp)
  | ok ctx => rw [hc] at h; exact ⟨ctx, rfl, h⟩

theorem parseBody_ok {ctx : Ctx} {od sd : Option (List (List CellValue))}
    {mid iid now : String} {out : ParseOutput}
    (h : parseBody ctx od sd mid iid now = .ok out) :
    ∃ kmap st, entityPass ctx od sd mid iid now = .ok kmap ∧
      rankPass ctx od sd = .ok st ∧ out = assemble ctx kmap st := by
  unfold parseBody at h
  cases he : entityPass ctx od sd mid iid now with
  | error e => rw [he] at h; exact absurd h (by simp)
  | ok kmap =>
    rw [he] at h
    cases hr : rankPass ctx od sd with
    | error e => rw [hr] at h; exact absurd h (by simp)
    | ok st =>
      rw [hr] at h
      cases h
      exact ⟨kmap, st, rfl, rfl, rfl⟩

theorem entityPass_ok {ctx : Ctx} {od sd : Option (List (List CellValue))}
    {mid iid now : String} {kmap : List (EntityKey × KwRecord)}
    (h : entityPass ctx od sd mid iid now = .ok kmap) :
    ∃ m1, processEntityRows false ctx mid iid now (sheetRows sd) [] = .ok m1 ∧
      processEntityRows true ctx mid iid now (sheetRows od) m1 = .ok kmap := by
  unfold entityPass at h
  cases hs : processEntityRows false ctx mid iid now (sheetRows sd) [] with
  | error e => rw [hs] at h; exact absurd h (by simp)
  | ok m1 => rw [hs] at h; exact ⟨m1, rfl, h⟩

theorem rankPass_ok {ctx : Ctx} {od sd : Option (List (List CellValue))} {st : RankState}
    (h : rankPass ctx od sd = .ok st) :
    ∃ st1, processRankRows true ctx (sheetRows od) { m := [], org := 0, spon := 0 } = .ok st1 ∧
      processRankRows false ctx (sheetRows sd) st1 = .ok st := by
  unfold rankPass at h
  cases ho : processRankRows true ctx (sheetRows od) { m := [], org := 0, spon := 0 } with
  | error e => rw [ho] at h; exact absurd h (by simp)
  | ok st1 => rw [ho] at h; exact ⟨st1, rfl, h⟩

/-- Inversion of a successful header phase. -/
theorem mkCtx_ok_inv {od sd : Option (List (List CellValue))} {ctx : Ctx}
    (h : mkCtx od sd = .ok ctx) :
    ¬ (od.isNone = true ∧ sd.isNone = true) ∧
    ∃ pd, (if truthy od = true then od else sd) = some pd ∧
      ¬ pd.length < 2 ∧
      (missingRequired (buildColIndices (pd.headI.map headerStr))).isEmpty = true ∧
      (detect_date_columns ((pd.headI.map headerStr).map CellValue.str)).1.isEmpty = false ∧
      ctx = { col_indices := addDateIndices (buildColIndices (pd.headI.map headerStr))
                               (detect_date_columns ((pd.headI.map headerStr).map CellValue.str)).2,
              date_col_map := (detect_date_columns ((pd.headI.map headerStr).map CellValue.str)).2,
              sorted_dates := sortStrings (detect_date_columns ((pd.headI.map headerStr).map CellValue.str)).1 } := by
  simp only [mkCtx] at h
  by_cases h1 : od.isNone = true ∧ sd.isNone = true
  · rw [if_pos h1] at h
    exact absurd h (by simp)
  · rw [if_neg h1] at h
    refine ⟨h1, ?_⟩
    cases hp : (if truthy od = true then od else sd) with
    | none => rw [hp] at h; exact absurd h (by simp)
    | some pd =>
      rw [hp] at h
      dsimp only at h
      by_cases h2 : pd.length < 2
      · rw [if_pos h2] at h
        exact absurd h (by simp)
      · rw [if_neg h2] at h
        by_cases h3 : (!(missingRequired (buildColIndices (pd.headI.map headerStr))).isEmpty) = true
        · rw [if_pos h3] at h
          exact absurd h (by simp)
        · rw [if_neg h3] at h
          by_cases h4 : (detect_date_columns ((pd.headI.map headerStr).map CellValue.str)).1.isEmpty = true
          · rw [if_pos h4] at h
            exact absurd h (by simp)
          · rw [if_neg h4] at h
            cases h
            refine ⟨pd, rfl, h2, ?_, ?_, rfl⟩
            · simpa using h3
            · simpa using h4

/-- The sorted-dates component of a successful header phase. -/
theorem mkCtx_sorted {od sd : Option (List (List CellValue))} {ctx : Ctx}
    (h : mkCtx od sd = .ok ctx) : ctx.sorted_dates.Pairwise (fun a b => a ≤ b) := by
  obtain ⟨-, pd, -, -, -, -, hctx⟩ := mkCtx_ok_inv h
  rw [hctx]
  exact sortStrings_sorted _

/-! ### Error forms of the row readers -/

theorem rowCell_err {row : List CellValue} {i : ℕ} {e : PyError}
    (h : rowCell row i = .error e) : e = .indexError := by
  unfold rowCell at h
  cases hg : row.get? i <;> rw [hg] at h <;> simp_all

theorem readStr_err {ctx : Ctx} {row : List CellValue} {name : String} {dflt : ℕ} {e : PyError}
    (h : readStr ctx row name dflt = .error e) : e = .indexError := by
  unfold readStr readCell at h
  cases hg : rowCell row (colIdx ctx name dflt) <;> rw [hg] at h <;> simp_all
  exact rowCell_err hg

theorem readNum_err {ctx : Ctx} {row : List CellValue} {name : String} {dflt : ℕ} {e : PyError}
    (h : readNum ctx row name dflt = .error e) : e = .indexError := by
  unfold readNum readCell at h
  cases hg : rowCell row (colIdx ctx name dflt) <;> rw [hg] at h <;> simp_all
  exact rowCell_err hg

theorem safeInt_err {v : CellValue} {e : PyError}
    (h : safeInt v = .error e) : e = .overflowError := by
  unfold safeInt at h
  cases v <;> dsimp only at h <;>
    (try split at h) <;> (try split at h) <;> simp_all

theorem readCell_err {ctx : Ctx} {row : List CellValue} {name : String} {dflt : ℕ} {e : PyError}
    (h : readCell ctx row name dflt = .error e) : e = .indexError :=
  rowCell_err h

theorem readInt_err {ctx : Ctx} {row : List CellValue} {name : String} {dflt : ℕ} {e : PyError}
    (h : readInt ctx row name dflt = .error e) : e = .indexError ∨ e = .overflowError := by
  unfold readInt at h
  cases hg : readCell ctx row name dflt <;> rw [hg] at h
  · cases h
    exact Or.inl (readCell_err hg)
  · exact Or.inr (safeInt_err h)

theorem parse_rank_value_cases (v : CellValue) :
    parse_rank_value v = .error .overflowError ∨ ∃ r, parse_rank_value v = .ok r := by
  unfold parse_rank_value
  dsimp only
  split
  · exact Or.inr ⟨_, rfl⟩
  · split
    · exact Or.inr ⟨_, rfl⟩
    · split
      · exact Or.inr ⟨_, rfl⟩
      · split
        · exact Or.inr ⟨_, rfl⟩
        · split
          · exact Or.inr ⟨_, rfl⟩
          · exact Or.inr ⟨_, rfl⟩
          · exact Or.inl rfl
          · exact Or.inl rfl
          · split
            · exact Or.inr ⟨_, rfl⟩
            · exact Or.inr ⟨_, rfl⟩

theorem parse_rank_value_err {v : CellValue} {e : PyError}
    (h : parse_rank_value v = .error e) : e = .overflowError := by
  rcases parse_rank_value_cases v with hc | ⟨r, hc⟩
  · rw [hc] at h
    cases h
    rfl
  · rw [hc] at h
    cases h

theorem entityKeyOfRow_cases (ctx : Ctx) (row : List CellValue) :
    entityKeyOfRow ctx row = .error .indexError ∨ ∃ r, entityKeyOfRow ctx row = .ok r := by
  unfold entityKeyOfRow
  cases h1 : readCell ctx row "ASIN" 0 with
  | error e => exact Or.inl (by rw [readCell_err h1])
  | ok c1 =>
    cases h2 : readCell ctx row "Keyword" 3 with
    | error e => exact Or.inl (by rw [readCell_err h2])
    | ok c2 =>
      dsimp only
      right
      split
      · exact ⟨_, rfl⟩
      · exact ⟨_, rfl⟩

theorem entityKeyOfRow_err {ctx : Ctx} {row : List CellValue} {e : PyError}
    (h : entityKeyOfRow ctx row = .error e) : e = .indexError := by
  rcases entityKeyOfRow_cases ctx row with hc | ⟨r, hc⟩
  · rw [hc] at h
    cases h
    rfl
  · rw [hc] at h
    cases h

/-! ### Record construction lemmas -/

theorem buildKwRecord_ok {ctx : Ctx} {mid iid now : String} {row : List CellValue}
    {asin kw : String} {r : KwRecord}
    (h : buildKwRecord ctx mid iid now row asin kw = .ok r) :
    r.child_asin = asin ∧ r.keyword = kw ∧ r.marketplace_id = mid ∧
    r.import_id = iid ∧ r.updated_at = now := by
  unfold buildKwRecord at h
  obtain ⟨a1, h1, h⟩ := exbind_ok h
  obtain ⟨a2, h2, h⟩ := exbind_ok h
  obtain ⟨a3, h3, h⟩ := exbind_ok h
  obtain ⟨a4, h4, h⟩ := exbind_ok h
  obtain ⟨a5, h5, h⟩ := exbind_ok h
  obtain ⟨a6, h6, h⟩ := exbind_ok h
  obtain ⟨a7, h7, h⟩ := exbind_ok h
  obtain ⟨a8, h8, h⟩ := exbind_ok h
  obtain ⟨a9, h9, h⟩ := exbind_ok h
  obtain ⟨a10, h10, h⟩ := exbind_ok h
  obtain ⟨a11, h11, h⟩ := exbind_ok h
  obtain ⟨a12, h12, h⟩ := exbind_ok h
  obtain ⟨a13, h13, h⟩ := exbind_ok h
  obtain ⟨a14, h14, h⟩ := exbind_ok h
  obtain ⟨a15, h15, h⟩ := exbind_ok h
  cases h
  exact ⟨rfl, rfl, rfl, rfl, rfl⟩

theorem buildKwRecord_err {ctx : Ctx} {mid iid now : String} {row : List CellValue}
    {asin kw : String} {e : PyError}
    (h : buildKwRecord ctx mid iid now row asin kw = .error e) :
    e = .indexError ∨ e = .overflowError := by
  unfold buildKwRecord at h
  rcases exbind_err h with h | ⟨a1, -, h⟩
  · exact Or.inl (readStr_err h)
  rcases exbind_err h with h | ⟨a2, -, h⟩
  · exact Or.inl (readStr_err h)
  rcases exbind_err h with h | ⟨a3, -, h⟩
  · exact Or.inl (readStr_err h)
  rcases exbind_err h with h | ⟨a4, -, h⟩
  · exact Or.inl (readNum_err h)
  rcases exbind_err h with h | ⟨a5, -, h⟩
  · exact Or.inl (readNum_err h)
  rcases exbind_err h with h | ⟨a6, -, h⟩
  · exact Or.inl (readNum_err h)
  rcases exbind_err h with h | ⟨a7, -, h⟩
  · exact Or.inl (readNum_err h)
  rcases exbind_err h with h | ⟨a8, -, h⟩
  · exact readInt_err h
  rcases exbind_err h with h | ⟨a9, -, h⟩
  · exact readInt_err h
  rcases exbind_err h with h | ⟨a10, -, h⟩
  · exact readInt_err h
  rcases exbind_err h with h | ⟨a11, -, h⟩
  · exact readInt_err h
  rcases exbind_err h with h | ⟨a12, -, h⟩
  · exact Or.inl (readNum_err h)
  rcases exbind_err h with h | ⟨a13, -, h⟩
  · exact Or.inl (readNum_err h)
  rcases exbind_err h with h | ⟨a14, -, h⟩
  · exact Or.inl (readNum_err h)
  rcases exbind_err h with h | ⟨a15, -, h⟩
  · exact Or.inl (readNum_err h)
  cases h

/-- The record built from a row is, apart from the `updated_at` field,
independent of the clock reading. -/
theorem buildKwRecord_clock (ctx : Ctx) (mid iid : String) (row : List CellValue)
    (asin kw : String) (t : String) :
    buildKwRecord ctx mid iid t row asin kw =
      Except.map (setUA t) (buildKwRecord ctx mid iid "" row asin kw) := by
  unfold buildKwRecord
  cases readStr ctx row "Tracked" 4 <;> simp only [Bind.bind, Except.bind, Except.map] <;>
  cases readStr ctx row "SKU" 1 <;> simp only [Except.bind, Except.map] <;>
  cases readStr ctx row "Title" 2 <;> simp only [Except.bind, Except.map] <;>
  cases readNum ctx row "Sales" 5 <;> simp only [Except.bind, Except.map] <;>
  cases readNum ctx row "ACOS" 6 <;> simp only [Except.bind, Except.map] <;>
  cases readNum ctx row "Conversion" 7 <;> simp only [Except.bind, Except.map] <;>
  cases readNum ctx row "Spent" 8 <;> simp only [Except.bind, Except.map] <;>
  cases readInt ctx row "Orders" 9 <;> simp only [Except.bind, Except.map] <;>
  cases readInt ctx row "Units" 10 <;> simp only [Except.bind, Except.map] <;>
  cases readInt ctx row "Clicks" 11 <;> simp only [Except.bind, Except.map] <;>
  cases readInt ctx row "Query Volume" 12 <;> simp only [Except.bind, Except.map] <;>
  cases readNum ctx row "Conversion Delta" 13 <;> simp only [Except.bind, Except.map] <;>
  cases readNum ctx row "Market Conversion" 14 <;> simp only [Except.bind, Except.map] <;>
  cases readNum ctx row "Asin Conversion" 15 <;> simp only [Except.bind, Except.map] <;>
  cases readNum ctx row "Purchase Share" 16 <;> simp only [Except.bind, Except.map] <;>
  rfl

/-! ### Entity pass: duplicate handling -/

theorem find?_split {α : Type} (p : α → Bool) (l1 l2 : List α) :
    (l1 ++ l2).find? p =
      match l1.find? p with
      | some x => some x
      | Option.none => l2.find? p := by
  induction l1 with
  | nil => simp
  | cons a t ih =>
    by_cases h : p a <;> simp [List.find?_cons, h, ih]

theorem processEntityRow_err {isOrganic : Bool} {ctx : Ctx} {mid iid now : String}
    {m : List (EntityKey × KwRecord)} {row : List CellValue} {e : PyError}
    (h : processEntityRow isOrganic ctx mid iid now m row = .error e) :
    e = .indexError ∨ e = .overflowError := by
  unfold processEntityRow at h
  cases hk : entityKeyOfRow ctx row with
  | error e2 =>
    rw [hk] at h
    cases h
    exact Or.inl (entityKeyOfRow_err hk)
  | ok o =>
    rw [hk] at h
    cases o with
    | none => cases h
    | some v =>
      rcases v with ⟨key, asin, kw⟩
      dsimp only at h
      split at h
      · cases h
      · cases hb : buildKwRecord ctx mid iid now row asin kw <;> rw [hb] at h
        · cases h
          exact buildKwRecord_err hb
        · cases h

theorem processEntityRows_err {isOrganic : Bool} {ctx : Ctx} {mid iid now : String}
    {rows : List (List CellValue)} {m : List (EntityKey × KwRecord)} {e : PyError}
    (h : processEntityRows isOrganic ctx mid iid now rows m = .error e) :
    e = .indexError ∨ e = .overflowError := by
  induction rows generalizing m with
  | nil => cases h
  | cons row rest ih =>
    unfold processEntityRows at h
    cases hs : processEntityRow isOrganic ctx mid iid now m row with
    | error e2 =>
      rw [hs] at h
      cases h
      exact processEntityRow_err hs
    | ok m1 =>
      rw [hs] at h
      exact ih h

/-- A row not carrying key `k` leaves the lookup at `k` unchanged. -/
theorem processEntityRow_nokey {isOrganic : Bool} {ctx : Ctx} {mid iid now : String}
    {m m1 : List (EntityKey × KwRecord)} {row : List CellValue} {k : EntityKey}
    (h : processEntityRow isOrganic ctx mid iid now m row = .ok m1)
    (hk : rowKeyB ctx k row = false) : dget m1 k = dget m k := by
  unfold processEntityRow at h
  cases he : entityKeyOfRow ctx row with
  | error e => rw [he] at h; cases h
  | ok o =>
    rw [he] at h
    cases o with
    | none => cases h; rfl
    | some v =>
      rcases v with ⟨key, asin, kw⟩
      have hne : ¬ k = key := by
        unfold rowKeyB at hk
        rw [he] at hk
        simp only [decide_eq_false_iff_not] at hk
        exact fun hh => hk hh.symm
      dsimp only at h
      split at h
      · cases h; rfl
      · cases hb : buildKwRecord ctx mid iid now row asin kw <;> rw [hb] at h
        · cases h
        · cases h
          rw [dget_dset, if_neg hne]

/-- A sponsored (non-organic) row never changes a key that is already
present. -/
theorem processEntityRow_spon_present {ctx : Ctx} {mid iid now : String}
    {m m1 : List (EntityKey × KwRecord)} {row : List CellValue} {k : EntityKey}
    (h : processEntityRow false ctx mid iid now m row = .ok m1)
    (hk : (dget m k).isSome = true) : dget m1 k = dget m k := by
  unfold processEntityRow at h
  cases he : entityKeyOfRow ctx row with
  | error e => rw [he] at h; cases h
  | ok o =>
    rw [he] at h
    cases o with
    | none => cases h; rfl
    | some v =>
      rcases v with ⟨key, asin, kw⟩
      dsimp only at h
      by_cases hkey : key = k
      · subst hkey
        rw [if_pos (by simpa using hk)] at h
        cases h; rfl
      · split at h
        · cases h; rfl
        · cases hb : buildKwRecord ctx mid iid now row asin kw <;> rw [hb] at h
          · cases h
          · cases h
            rw [dget_dset, if_neg (fun hh => hkey hh.symm)]

theorem processEntityRows_spon_present {ctx : Ctx} {mid iid now : String}
    {rows : List (List CellValue)} {m m' : List (EntityKey × KwRecord)} {k : EntityKey}
    (h : processEntityRows false ctx mid iid now rows m = .ok m')
    (hk : (dget m k).isSome = true) : dget m' k = dget m k := by
  induction rows generalizing m with
  | nil => cases h; rfl
  | cons row rest ih =>
    unfold processEntityRows at h
    cases hs : processEntityRow false ctx mid iid now m row with
    | error e => rw [hs] at h; cases h
    | ok m1 =>
      rw [hs] at h
      have hstep := processEntityRow_spon_present hs hk
      rw [ih h (by rw [hstep]; exact hk), hstep]

/-- A row that carries key `k` and is processed as an organic row (or
as a sponsored row over a map without `k`) stores the record built
from it. -/
theorem processEntityRow_key {isOrganic : Bool} {ctx : Ctx} {mid iid now : String}
    {m m1 : List (EntityKey × KwRecord)} {row : List CellValue} {k : EntityKey}
    (h : processEntityRow isOrganic ctx mid iid now m row = .ok m1)
    (hk : rowKeyB ctx k row = true)
    (hfree : isOrganic = true ∨ dget m k = Option.none) :
    ∃ a w r, entityKeyOfRow ctx row = .ok (some (k, a, w)) ∧
      buildKwRecord ctx mid iid now row a w = .ok r ∧ dget m1 k = some r := by
  unfold processEntityRow at h
  cases he : entityKeyOfRow ctx row with
  | error e => rw [he] at h; cases h
  | ok o =>
    rw [he] at h
    cases o with
    | none => unfold rowKeyB at hk; rw [he] at hk; cases hk
    | some v =>
      rcases v with ⟨key, asin, kw⟩
      have hkey : key = k := by
        unfold rowKeyB at hk
        rw [he] at hk
        simpa using hk
      subst hkey
      dsimp only at h
      have hcond : (!isOrganic && (dget m key).isSome) = false := by
        rcases hfree with ho | hn
        · rw [ho]; rfl
        · rw [hn]; simp
      rw [hcond] at h
      simp only [Bool.false_eq_true, if_false] at h
      cases hb : buildKwRecord ctx mid iid now row asin kw with
      | error e => rw [hb] at h; cases h
      | ok r2 =>
        rw [hb] at h
        cases h
        exact ⟨asin, kw, r2, rfl, hb, by rw [dget_dset, if_pos rfl]⟩

/-- First-wins characterization of the sponsored entity pass for keys
not yet present. -/
theorem processEntityRows_spon_absent {ctx : Ctx} {mid iid now : String}
    {rows : List (List CellValue)} {m m' : List (EntityKey × KwRecord)} {k : EntityKey}
    (h : processEntityRows false ctx mid iid now rows m = .ok m')
    (hn : dget m k = Option.none) :
    match rows.find? (fun row => rowKeyB ctx k row) with
    | some row => ∃ a w r, entityKeyOfRow ctx row = .ok (some (k, a, w)) ∧
        buildKwRecord ctx mid iid now row a w = .ok r ∧ dget m' k = some r
    | Option.none => dget m' k = Option.none := by
  induction rows generalizing m with
  | nil =>
    cases h
    simpa using hn
  | cons row rest ih =>
    unfold processEntityRows at h
    cases hs : processEntityRow false ctx mid iid now m row with
    | error e => rw [hs] at h; cases h
    | ok m1 =>
      rw [hs] at h
      cases hk : rowKeyB ctx k row with
      | true =>
        rw [List.find?_cons_of_pos _ hk]
        obtain ⟨a, w, r, he, hb, hg⟩ := processEntityRow_key hs hk (Or.inr hn)
        refine ⟨a, w, r, he, hb, ?_⟩
        rw [processEntityRows_spon_present h (by rw [hg]; rfl), hg]
      | false =>
        rw [List.find?_cons_of_neg _ (by simp [hk])]
        have hstep := processEntityRow_nokey hs hk
        exact ih h (by rw [hstep]; exact hn)

/-- Last-wins characterization of the organic entity pass. -/
theorem processEntityRows_org {ctx : Ctx} {mid iid now : String}
    {rows : List (List CellValue)} {m m' : List (EntityKey × KwRecord)} {k : EntityKey}
    (h : processEntityRows true ctx mid iid now rows m = .ok m') :
    match rows.reverse.find? (fun row => rowKeyB ctx k row) with
    | some row => ∃ a w r, entityKeyOfRow ctx row = .ok (some (k, a, w)) ∧
        buildKwRecord ctx mid iid now row a w = .ok r ∧ dget m' k = some r
    | Option.none => dget m' k = dget m k := by
  induction rows generalizing m with
  | nil =>
    cases h
    simp
  | cons row rest ih =>
    unfold processEntityRows at h
    cases hs : processEntityRow true ctx mid iid now m row with
    | error e => rw [hs] at h; cases h
    | ok m1 =>
      rw [hs] at h
      rw [List.reverse_cons, find?_split]
      cases hf : rest.reverse.find? (fun row => rowKeyB ctx k row) with
      | some row' =>
        have := ih h
        rw [hf] at this
        exact this
      | none =>
        have hrest := ih h
        rw [hf] at hrest
        dsimp only at hrest
        dsimp only
        cases hk : rowKeyB ctx k row with
        | true =>
          rw [List.find?_cons_of_pos _ hk]
          obtain ⟨a, w, r, he, hb, hg⟩ := processEntityRow_key hs hk (Or.inl rfl)
          exact ⟨a, w, r, he, hb, by rw [hrest, hg]⟩
        | false =>
          rw [List.find?_cons_of_neg _ (by simp [hk]), List.find?_nil]
          dsimp only
          rw [hrest, processEntityRow_nokey hs hk]

/-- Invariant of the entity map: distinct keys, and every stored
record's derived key is its stored key. -/
def InvE (m : List (EntityKey × KwRecord)) : Prop :=
  (m.map Prod.fst).Nodup ∧ ∀ p ∈ m, recKey p.2 = p.1

theorem InvE_nil : InvE [] := ⟨List.nodup_nil, by simp⟩

theorem processEntityRow_inv {isOrganic : Bool} {ctx : Ctx} {mid iid now : String}
    {m m1 : List (EntityKey × KwRecord)} {row : List CellValue}
    (h : processEntityRow isOrganic ctx mid iid now m row = .ok m1)
    (hi : InvE m) : InvE m1 := by
  unfold processEntityRow at h
  cases he : entityKeyOfRow ctx row with
  | error e => rw [he] at h; cases h
  | ok o =>
    rw [he] at h
    cases o with
    | none => cases h; exact hi
    | some v =>
      rcases v with ⟨key, asin, kw⟩
      dsimp only at h
      split at h
      · cases h; exact hi
      · cases hb : buildKwRecord ctx mid iid now row asin kw with
        | error e => rw [hb] at h; cases h
        | ok r =>
          rw [hb] at h
          cases h
          have hkey : key = (pyUpper asin, pyLower kw) := by
            unfold entityKeyOfRow at he
            cases h1 : readCell ctx row "ASIN" 0 <;> rw [h1] at he
            · cases he
            · cases h2 : readCell ctx row "Keyword" 3 <;> rw [h2] at he
              · cases he
              · dsimp only at he
                split at he
                · cases he
                · cases he
                  rfl
          have hfields := buildKwRecord_ok hb
          constructor
          · exact nodup_keys_dset _ _ _ hi.1
          · intro p hp
            rcases mem_dset hp with ⟨hk1, hk2⟩ | hm
            · rw [hk1, hk2]
              unfold recKey
              rw [hfields.1, hfields.2.1, hkey]
            · exact hi.2 p hm

theorem processEntityRows_inv {isOrganic : Bool} {ctx : Ctx} {mid iid now : String}
    {rows : List (List CellValue)} {m m' : List (EntityKey × KwRecord)}
    (h : processEntityRows isOrganic ctx mid iid now rows m = .ok m')
    (hi : InvE m) : InvE m' := by
  induction rows generalizing m with
  | nil => cases h; exact hi
  | cons row rest ih =>
    unfold processEntityRows at h
    cases hs : processEntityRow isOrganic ctx mid iid now m row with
    | error e => rw [hs] at h; cases h
    | ok m1 =>
      rw [hs] at h
      exact ih h (processEntityRow_inv hs hi)

theorem entityPass_inv {ctx : Ctx} {od sd : Option (List (List CellValue))}
    {mid iid now : String} {kmap : List (EntityKey × KwRecord)}
    (h : entityPass ctx od sd mid iid now = .ok kmap) : InvE kmap := by
  obtain ⟨m1, h1, h2⟩ := entityPass_ok h
  exact processEntityRows_inv h2 (processEntityRows_inv h1 InvE_nil)

/-- Under the invariant, the derived keys of the stored values are the
stored keys. -/
theorem values_keys_of_inv {m : List (EntityKey × KwRecord)} (hi : InvE m) :
    (m.map Prod.snd).map recKey = m.map Prod.fst := by
  rcases hi with ⟨-, hc⟩
  induction m with
  | nil => rfl
  | cons p t ih =>
    simp only [List.map_cons, List.map_map]
    have hp := hc p (List.mem_cons_self p t)
    have ht := ih (fun q hq => hc q (List.mem_cons_of_mem p hq))
    simp only [List.map_map] at ht
    exact by rw [hp, ht]

/-! ## Claim theorems -/

/-- C1: at most one EntityProfile per EntityKey in the output, and a
key that appears in the organic sheet is served entirely from an
organic row: the surviving record equals `buildKwRecord` applied to an
organic row, never to a sponsored one. -/
theorem entity_key_unique_and_organic_wins
    (od sd : Option (List (List CellValue))) (mid iid now : String) (ctx : Ctx)
    (recs : List KwRecord) (merged : List (RankKey × RankRecord))
    (dates : List String) (stats : Stats)
    (hctx : mkCtx od sd = .ok ctx)
    (hrun : parse_excel od sd mid iid now = .ok (recs, merged, dates, stats)) :
    recs.Pairwise (fun r1 r2 => recKey r1 ≠ recKey r2) ∧
    ∀ r ∈ recs, (∃ row ∈ sheetRows od, rowKeyB ctx (recKey r) row = true) →
      ∃ row ∈ sheetRows od, ∃ a w,
        entityKeyOfRow ctx row = .ok (some (recKey r, a, w)) ∧
        buildKwRecord ctx mid iid now row a w = .ok r := by
  obtain ⟨ctx', hctx', hbody⟩ := parse_excel_ok hrun
  rw [hctx] at hctx'
  cases hctx'
  obtain ⟨kmap, st, hent, hrank, hout⟩ := parseBody_ok hbody
  have hrecs : recs = (kmap.map Prod.snd).filter keepRecord := by
    have := congrArg Prod.fst hout
    simpa [assemble] using this
  have hinv : InvE kmap := entityPass_inv hent
  constructor
  · -- distinct derived keys
    have hnd : ((kmap.map Prod.snd).map recKey).Nodup := by
      rw [values_keys_of_inv hinv]
      exact hinv.1
    have hpw : (kmap.map Prod.snd).Pairwise (fun r1 r2 => recKey r1 ≠ recKey r2) :=
      List.pairwise_map.mp hnd
    rw [hrecs]
    exact hpw.sublist (List.filter_sublist _)
  · intro r hr hex
    -- the record is stored in the map at its derived key
    have hrv : r ∈ kmap.map Prod.snd := by
      rw [hrecs] at hr
      exact List.mem_of_mem_filter hr
    rcases List.mem_map.mp hrv with ⟨p, hp, hpr⟩
    have hkey : p.1 = recKey r := by
      rw [← hpr]
      exact (hinv.2 p hp).symm
    have hget : dget kmap (recKey r) = some r := by
      rw [← hkey, ← hpr]
      exact dget_of_mem hinv.1 (by simpa using hp)
    -- the organic pass characterization
    obtain ⟨m1, hspon, horg⟩ := entityPass_ok hent
    have hchar := processEntityRows_org (k := recKey r) horg
    rcases hex with ⟨row0, hrow0, hkb0⟩
    have hfind : ((sheetRows od).reverse.find? (fun row => rowKeyB ctx (recKey r) row)).isSome := by
      rw [List.find?_isSome]
      exact ⟨row0, List.mem_reverse.mpr hrow0, hkb0⟩
    cases hf : (sheetRows od).reverse.find? (fun row => rowKeyB ctx (recKey r) row) with
    | none => rw [hf] at hfind; cases hfind
    | some row =>
      rw [hf] at hchar
      obtain ⟨a, w, r', he, hb, hg⟩ := hchar
      have hrr : r' = r := by
        rw [hget] at hg
        cases hg
        rfl
      subst hrr
      exact ⟨row, List.mem_reverse.mp (List.mem_of_find?_eq_some hf), a, w, he, hb⟩

/-- C9: duplicate keys within one sheet are resolved differently per
sheet: the sponsored pass keeps the first matching row's record
(later rows for a present key are skipped), the organic pass keeps the
last matching row's record (unconditional overwrite). -/
theorem duplicate_rows_first_wins_sponsored_last_wins_organic
    (ctx : Ctx) (mid iid now : String) (rows : List (List CellValue))
    (m m' : List (EntityKey × KwRecord)) (k : EntityKey) :
    (processEntityRows false ctx mid iid now rows m = .ok m' →
      (dget m k).isSome = true → dget m' k = dget m k) ∧
    (processEntityRows false ctx mid iid now rows m = .ok m' →
      dget m k = Option.none →
      match rows.find? (fun row => rowKeyB ctx k row) with
      | some row => ∃ a w r, entityKeyOfRow ctx row = .ok (some (k, a, w)) ∧
          buildKwRecord ctx mid iid now row a w = .ok r ∧ dget m' k = some r
      | Option.none => dget m' k = Option.none) ∧
    (processEntityRows true ctx mid iid now rows m = .ok m' →
      match rows.reverse.find? (fun row => rowKeyB ctx k row) with
      | some row => ∃ a w r, entityKeyOfRow ctx row = .ok (some (k, a, w)) ∧
          buildKwRecord ctx mid iid now row a w = .ok r ∧ dget m' k = some r
      | Option.none => dget m' k = dget m k) :=
  ⟨fun h hk => processEntityRows_spon_present h hk,
   fun h hn => processEntityRows_spon_absent h hn,
   fun h => processEntityRows_org h⟩

theorem entity_key_unique_and_organic_wins_witness :
    ∃ recs merged dates stats,
      parse_excel sampleOrganic sampleSponsored "mkt" "imp" "2025-02-01T00:00:00" =
        .ok (recs, merged, dates, stats) ∧
      recs.Pairwise (fun r1 r2 => recKey r1 ≠ recKey r2) :=
  ⟨_, _, _, _, by rfl,
    (entity_key_unique_and_organic_wins sampleOrganic sampleSponsored "mkt" "imp"
      "2025-02-01T00:00:00" sampleCtx _ _ _ _ (by rfl) (by rfl)).1⟩

theorem duplicate_rows_witness :
    ∃ m', processEntityRows true sampleCtx "mkt" "imp" "t" (sheetRows sampleOrganic) [] = .ok m' ∧
      (match (sheetRows sampleOrganic).reverse.find?
          (fun row => rowKeyB sampleCtx ("D4", "kw4") row) with
        | some row => ∃ a w r, entityKeyOfRow sampleCtx row = .ok (some (("D4", "kw4"), a, w)) ∧
            buildKwRecord sampleCtx "mkt" "imp" "t" row a w = .ok r ∧
            dget m' ("D4", "kw4") = some r
        | Option.none => dget m' ("D4", "kw4") =
            dget ([] : List (EntityKey × KwRecord)) ("D4", "kw4")) :=
  ⟨_, by rfl,
    (duplicate_rows_first_wins_sponsored_last_wins_organic sampleCtx "mkt" "imp" "t"
      (sheetRows sampleOrganic) [] _ ("D4", "kw4")).2.2 (by rfl)⟩

/-! ### Rank pass lemmas -/

/-- Lookup after filtering by a key-only predicate. -/
theorem dget_filter_key {K V : Type} [DecidableEq K] (m : List (K × V)) (q : K → Bool) (k : K) :
    dget (m.filter (fun p => q p.1)) k = if q k then dget m k else Option.none := by
  induction m with
  | nil => by_cases h : q k <;> simp [dget_nil, h]
  | cons p t ih =>
    rcases p with ⟨a, b⟩
    by_cases ha : a = k
    · subst ha
      by_cases hq : q a <;> simp [List.filter_cons, hq, dget_cons, ih]
    · by_cases hq : q a <;> simp [List.filter_cons, hq, dget_cons, ha, ih]

theorem processRankCell_err {isOrganic : Bool} {ctx : Ctx} {asin kw : String}
    {row : List CellValue} {st : RankState} {d : String} {e : PyError}
    (h : processRankCell isOrganic ctx asin kw row st d = .error e) : e = .overflowError := by
  unfold processRankCell at h
  cases hr : resolveDateIdx ctx d with
  | none => rw [hr] at h; cases h
  | some idx =>
    rw [hr] at h
    dsimp only at h
    split at h
    · cases hp : parse_rank_value (row.get ⟨idx, by assumption⟩) with
      | error e2 =>
        rw [hp] at h
        cases h
        exact parse_rank_value_err hp
      | ok pr =>
        rw [hp] at h
        rcases pr with ⟨rank, oor⟩
        dsimp only at h
        split at h
        · cases h
        · cases h
    · cases h

theorem processRankDates_err {isOrganic : Bool} {ctx : Ctx} {asin kw : String}
    {row : List CellValue} {ds : List String} {st : RankState} {e : PyError}
    (h : processRankDates isOrganic ctx asin kw row ds st = .error e) : e = .overflowError := by
  induction ds generalizing st with
  | nil => cases h
  | cons d rest ih =>
    unfold processRankDates at h
    cases hs : processRankCell isOrganic ctx asin kw row st d with
    | error e2 =>
      rw [hs] at h
      cases h
      exact processRankCell_err hs
    | ok st1 =>
      rw [hs] at h
      exact ih h

theorem processRankRow_err {isOrganic : Bool} {ctx : Ctx} {st : RankState}
    {row : List CellValue} {e : PyError}
    (h : processRankRow isOrganic ctx st row = .error e) :
    e = .indexError ∨ e = .overflowError := by
  unfold processRankRow at h
  cases he : entityKeyOfRow ctx row with
  | error e2 =>
    rw [he] at h
    cases h
    exact Or.inl (entityKeyOfRow_err he)
  | ok o =>
    rw [he] at h
    cases o with
    | none => cases h
    | some v =>
      rcases v with ⟨key, asin, kw⟩
      exact Or.inr (processRankDates_err h)

theorem processRankRows_err {isOrganic : Bool} {ctx : Ctx}
    {rows : List (List CellValue)} {st : RankState} {e : PyError}
    (h : processRankRows isOrganic ctx rows st = .error e) :
    e = .indexError ∨ e = .overflowError := by
  induction rows generalizing st with
  | nil => cases h
  | cons row rest ih =>
    unfold processRankRows at h
    cases hs : processRankRow isOrganic ctx st row with
    | error e2 =>
      rw [hs] at h
      cases h
      exact processRankRow_err hs
    | ok st1 =>
      rw [hs] at h
      exact ih h

/-- Membership in the merged map only grows during the rank pass. -/
theorem processRankCell_mono {isOrganic : Bool} {ctx : Ctx} {asin kw : String}
    {row : List CellValue} {st st' : RankState} {d : String} {k : RankKey}
    (h : processRankCell isOrganic ctx asin kw row st d = .ok st')
    (hk : (dget st.m k).isSome = true) : (dget st'.m k).isSome = true := by
  unfold processRankCell at h
  cases hr : resolveDateIdx ctx d with
  | none => rw [hr] at h; cases h; exact hk
  | some idx =>
    rw [hr] at h
    dsimp only at h
    split at h
    · cases hp : parse_rank_value (row.get ⟨idx, by assumption⟩) with
      | error e2 => rw [hp] at h; cases h
      | ok pr =>
        rw [hp] at h
        rcases pr with ⟨rank, oor⟩
        dsimp only at h
        split at h
        · cases h; exact hk
        · cases h
          unfold bumpCount
          split <;> dsimp only <;> rw [dget_dset] <;> split <;> simp_all
    · cases h; exact hk

theorem processRankDates_mono {isOrganic : Bool} {ctx : Ctx} {asin kw : String}
    {row : List CellValue} {ds : List String} {st st' : RankState} {k : RankKey}
    (h : processRankDates isOrganic ctx asin kw row ds st = .ok st')
    (hk : (dget st.m k).isSome = true) : (dget st'.m k).isSome = true := by
  induction ds generalizing st with
  | nil => cases h; exact hk
  | cons d rest ih =>
    unfold processRankDates at h
    cases hs : processRankCell isOrganic ctx asin kw row st d with
    | error e2 => rw [hs] at h; cases h
    | ok st1 =>
      rw [hs] at h
      exact ih h (processRankCell_mono hs hk)

theorem processRankRow_mono {isOrganic : Bool} {ctx : Ctx} {st st' : RankState}
    {row : List CellValue} {k : RankKey}
    (h : processRankRow isOrganic ctx st row = .ok st')
    (hk : (dget st.m k).isSome = true) : (dget st'.m k).isSome = true := by
  unfold processRankRow at h
  cases he : entityKeyOfRow ctx row with
  | error e2 => rw [he] at h; cases h
  | ok o =>
    rw [he] at h
    cases o with
    | none => cases h; exact hk
    | some v =>
      rcases v with ⟨key, asin, kw⟩
      exact processRankDates_mono h hk

theorem processRankRows_mono {isOrganic : Bool} {ctx : Ctx}
    {rows : List (List CellValue)} {st st' : RankState} {k : RankKey}
    (h : processRankRows isOrganic ctx rows st = .ok st')
    (hk : (dget st.m k).isSome = true) : (dget st'.m k).isSome = true := by
  induction rows generalizing st with
  | nil => cases h; exact hk
  | cons row rest ih =>
    unfold processRankRows at h
    cases hs : processRankRow isOrganic ctx st row with
    | error e2 => rw [hs] at h; cases h
    | ok st1 =>
      rw [hs] at h
      exact ih h (processRankRow_mono hs hk)

theorem entityKeyOfRow_ok_inv {ctx : Ctx} {row : List CellValue}
    {key : EntityKey} {asin kw : String}
    (h : entityKeyOfRow ctx row = .ok (some (key, asin, kw))) :
    key = (pyUpper asin, pyLower kw) := by
  unfold entityKeyOfRow at h
  cases h1 : readCell ctx row "ASIN" 0 <;> rw [h1] at h
  · cases h
  · cases h2 : readCell ctx row "Keyword" 3 <;> rw [h2] at h
    · cases h
    · dsimp only at h
      split at h
      · cases h
      · cases h
        rfl

theorem processRankCell_sound {isOrganic : Bool} {ctx : Ctx} {asin kw : String}
    {row : List CellValue} {st st' : RankState} {d : String} {k : RankKey}
    (h : processRankCell isOrganic ctx asin kw row st d = .ok st')
    (hk : (dget st'.m k).isSome = true) :
    (dget st.m k).isSome = true ∨
      (k = (pyUpper asin, pyLower kw, d) ∧ cellContributes ctx row d = true) := by
  unfold processRankCell at h
  cases hr : resolveDateIdx ctx d with
  | none => rw [hr] at h; cases h; exact Or.inl hk
  | some idx =>
    rw [hr] at h
    dsimp only at h
    split at h
    · rename_i hlen
      cases hp : parse_rank_value (row.get ⟨idx, hlen⟩) with
      | error e2 => rw [hp] at h; cases h
      | ok pr =>
        rw [hp] at h
        rcases pr with ⟨rank, oor⟩
        dsimp only at h
        split at h
        · cases h; exact Or.inl hk
        · rename_i hcond
          cases h
          unfold bumpCount at hk
          have hm : (dget (dset st.m (pyUpper asin, pyLower kw, d)
              (setFacet isOrganic ((dget st.m (pyUpper asin, pyLower kw, d)).getD
                (freshRank asin kw d)) rank oor)) k).isSome = true := by
            revert hk
            split <;> intro hk <;> exact hk
          rw [dget_dset] at hm
          by_cases hkey : k = (pyUpper asin, pyLower kw, d)
          · refine Or.inr ⟨hkey, ?_⟩
            unfold cellContributes
            rw [hr]
            dsimp only
            rw [dif_pos hlen, hp]
            dsimp only
            rcases rank with _ | r <;> cases oor <;> simp_all
          · rw [if_neg hkey] at hm
            exact Or.inl hm
    · cases h; exact Or.inl hk

theorem processRankDates_sound {isOrganic : Bool} {ctx : Ctx} {asin kw : String}
    {row : List CellValue} {ds : List String} {st st' : RankState} {k : RankKey}
    (h : processRankDates isOrganic ctx asin kw row ds st = .ok st')
    (hk : (dget st'.m k).isSome = true) :
    (dget st.m k).isSome = true ∨
      (k.1 = pyUpper asin ∧ k.2.1 = pyLower kw ∧ k.2.2 ∈ ds ∧
        cellContributes ctx row k.2.2 = true) := by
  induction ds generalizing st with
  | nil => cases h; exact Or.inl hk
  | cons d rest ih =>
    unfold processRankDates at h
    cases hs : processRankCell isOrganic ctx asin kw row st d with
    | error e2 => rw [hs] at h; cases h
    | ok st1 =>
      rw [hs] at h
      rcases ih h with h1 | ⟨ha, hw, hm, hc⟩
      · rcases processRankCell_sound hs h1 with h2 | ⟨hkey, hc⟩
        · exact Or.inl h2
        · refine Or.inr ⟨?_, ?_, ?_, ?_⟩ <;> rw [hkey] <;>
            simp [List.mem_cons] <;> (try exact hc)
      · exact Or.inr ⟨ha, hw, List.mem_cons_of_mem d hm, hc⟩

theorem processRankRow_sound {isOrganic : Bool} {ctx : Ctx} {st st' : RankState}
    {row : List CellValue} {k : RankKey}
    (h : processRankRow isOrganic ctx st row = .ok st')
    (hk : (dget st'.m k).isSome = true) :
    (dget st.m k).isSome = true ∨ rowContributes ctx k row = true := by
  unfold processRankRow at h
  cases he : entityKeyOfRow ctx row with
  | error e2 => rw [he] at h; cases h
  | ok o =>
    rw [he] at h
    cases o with
    | none => cases h; exact Or.inl hk
    | some v =>
      rcases v with ⟨key, asin, kw⟩
      rcases processRankDates_sound h hk with h1 | ⟨ha, hw, hm, hc⟩
      · exact Or.inl h1
      · right
        have hkey := entityKeyOfRow_ok_inv he
        unfold rowContributes rowKeyB
        rw [he]
        have : key = (k.1, k.2.1) := by rw [hkey, ha, hw]
        simp [this, hm, hc]

theorem processRankRows_sound {isOrganic : Bool} {ctx : Ctx}
    {rows : List (List CellValue)} {st st' : RankState} {k : RankKey}
    (h : processRankRows isOrganic ctx rows st = .ok st')
    (hk : (dget st'.m k).isSome = true) :
    (dget st.m k).isSome = true ∨ ∃ row ∈ rows, rowContributes ctx k row = true := by
  induction rows generalizing st with
  | nil => cases h; exact Or.inl hk
  | cons row rest ih =>
    unfold processRankRows at h
    cases hs : processRankRow isOrganic ctx st row with
    | error e2 => rw [hs] at h; cases h
    | ok st1 =>
      rw [hs] at h
      rcases ih h with h1 | ⟨row', hm, hc⟩
      · rcases processRankRow_sound hs h1 with h2 | hc
        · exact Or.inl h2
        · exact Or.inr ⟨row, List.mem_cons_self row rest, hc⟩
      · exact Or.inr ⟨row', List.mem_cons_of_mem row hm, hc⟩

theorem processRankCell_complete {isOrganic : Bool} {ctx : Ctx} {asin kw : String}
    {row : List CellValue} {st st' : RankState} {d : String} {k : RankKey}
    (h : processRankCell isOrganic ctx asin kw row st d = .ok st')
    (hc : cellContributes ctx row d = true)
    (hkey : k = (pyUpper asin, pyLower kw, d)) : (dget st'.m k).isSome = true := by
  unfold processRankCell at h
  unfold cellContributes at hc
  cases hr : resolveDateIdx ctx d with
  | none => rw [hr] at hc; cases hc
  | some idx =>
    rw [hr] at h hc
    dsimp only at h hc
    split at hc
    · rename_i hlen
      rw [dif_pos hlen] at h
      cases hp : parse_rank_value (row.get ⟨idx, hlen⟩) with
      | error e2 => rw [hp] at hc; cases hc
      | ok pr =>
        rw [hp] at h hc
        rcases pr with ⟨rank, oor⟩
        dsimp only at h hc
        have hcond : ¬ (rank = Option.none ∧ oor = false) := by
          rcases rank with _ | r <;> cases oor <;> simp_all
        rw [if_neg hcond] at h
        cases h
        unfold bumpCount
        split <;> dsimp only <;> rw [hkey, dget_dset, if_pos rfl] <;> rfl
    · cases hc

theorem processRankDates_complete {isOrganic : Bool} {ctx : Ctx} {asin kw : String}
    {row : List CellValue} {ds : List String} {st st' : RankState} {k : RankKey}
    (h : processRankDates isOrganic ctx asin kw row ds st = .ok st')
    (hmem : k.2.2 ∈ ds)
    (hc : cellContributes ctx row k.2.2 = true)
    (ha : k.1 = pyUpper asin) (hw : k.2.1 = pyLower kw) :
    (dget st'.m k).isSome = true := by
  induction ds generalizing st with
  | nil => cases hmem
  | cons d rest ih =>
    unfold processRankDates at h
    cases hs : processRankCell isOrganic ctx asin kw row st d with
    | error e2 => rw [hs] at h; cases h
    | ok st1 =>
      rw [hs] at h
      rcases List.mem_cons.mp hmem with hd | hm
      · have hkey : k = (pyUpper asin, pyLower kw, d) := by
          rcases k with ⟨k1, k2, k3⟩
          simp only at ha hw hd
          rw [ha, hw, hd]
        have h1 : (dget st1.m k).isSome = true :=
          processRankCell_complete hs (hd ▸ hc) hkey
        exact processRankDates_mono h h1
      · exact ih h hm

theorem processRankRow_complete {isOrganic : Bool} {ctx : Ctx} {st st' : RankState}
    {row : List CellValue} {k : RankKey}
    (h : processRankRow isOrganic ctx st row = .ok st')
    (hc : rowContributes ctx k row = true) : (dget st'.m k).isSome = true := by
  unfold rowContributes at hc
  rw [Bool.and_eq_true, Bool.and_eq_true] at hc
  rcases hc with ⟨⟨hkb, hmem⟩, hcell⟩
  unfold processRankRow at h
  unfold rowKeyB at hkb
  cases he : entityKeyOfRow ctx row with
  | error e2 => rw [he] at hkb; cases hkb
  | ok o =>
    rw [he] at h hkb
    cases o with
    | none => cases hkb
    | some v =>
      rcases v with ⟨key, asin, kw⟩
      have hkey := entityKeyOfRow_ok_inv he
      have hkk : key = (k.1, k.2.1) := by simpa using hkb
      have ha : k.1 = pyUpper asin := by
        have := congrArg Prod.fst hkk
        rw [hkey] at hkk
        exact (congrArg Prod.fst hkk).symm
      have hw : k.2.1 = pyLower kw := by
        rw [hkey] at hkk
        exact (congrArg Prod.snd hkk).symm
      exact processRankDates_complete h (by simpa using hmem) hcell ha hw

theorem processRankRows_complete {isOrganic : Bool} {ctx : Ctx}
    {rows : List (List CellValue)} {st st' : RankState} {k : RankKey}
    (h : processRankRows isOrganic ctx rows st = .ok st')
    (hc : ∃ row ∈ rows, rowContributes ctx k row = true) :
    (dget st'.m k).isSome = true := by
  induction rows generalizing st with
  | nil => rcases hc with ⟨row, hm, -⟩; cases hm
  | cons row rest ih =>
    unfold processRankRows at h
    cases hs : processRankRow isOrganic ctx st row with
    | error e2 => rw [hs] at h; cases h
    | ok st1 =>
      rw [hs] at h
      rcases hc with ⟨row', hm, hcr⟩
      rcases List.mem_cons.mp hm with he | hm'
      · subst he
        exact processRankRows_mono h (processRankRow_complete hs hcr)
      · exact ih h ⟨row', hm', hcr⟩

theorem setFacet_id (isOrganic : Bool) (r : RankRecord) (rank : Option ℤ) (oor : Bool) :
    (setFacet isOrganic r rank oor).asin = r.asin ∧
    (setFacet isOrganic r rank oor).keyword = r.keyword ∧
    (setFacet isOrganic r rank oor).date = r.date := by
  unfold setFacet
  split <;> exact ⟨rfl, rfl, rfl⟩

/-- The map component of `bumpCount`. -/
theorem bumpCount_m (isOrganic : Bool) (st : RankState) (m1 : List (RankKey × RankRecord)) :
    (bumpCount isOrganic st m1).m = m1 := by
  unfold bumpCount
  split <;> rfl

/-- A cell step preserves the identity fields of a present record. -/
theorem processRankCell_id {isOrganic : Bool} {ctx : Ctx} {asin kw : String}
    {row : List CellValue} {st st' : RankState} {d : String} {k : RankKey} {r0 : RankRecord}
    (h : processRankCell isOrganic ctx asin kw row st d = .ok st')
    (hr0 : dget st.m k = some r0) :
    ∃ r, dget st'.m k = some r ∧ r.asin = r0.asin ∧ r.keyword = r0.keyword ∧
      r.date = r0.date := by
  unfold processRankCell at h
  cases hr : resolveDateIdx ctx d with
  | none => rw [hr] at h; cases h; exact ⟨r0, hr0, rfl, rfl, rfl⟩
  | some idx =>
    rw [hr] at h
    dsimp only at h
    split at h
    · rename_i hlen
      cases hp : parse_rank_value (row.get ⟨idx, hlen⟩) with
      | error e2 => rw [hp] at h; cases h
      | ok pr =>
        rw [hp] at h
        rcases pr with ⟨rank, oor⟩
        dsimp only at h
        split at h
        · cases h; exact ⟨r0, hr0, rfl, rfl, rfl⟩
        · cases h
          rw [bumpCount_m, dget_dset]
          by_cases hkey : k = (pyUpper asin, pyLower kw, d)
          · rw [if_pos hkey]
            have hbase : (dget st.m (pyUpper asin, pyLower kw, d)).getD (freshRank asin kw d) = r0 := by
              rw [← hkey, hr0]
              rfl
            rw [hbase]
            exact ⟨_, rfl, (setFacet_id _ _ _ _).1, (setFacet_id _ _ _ _).2.1,
              (setFacet_id _ _ _ _).2.2⟩
          · rw [if_neg hkey]
            exact ⟨r0, hr0, rfl, rfl, rfl⟩
    · cases h; exact ⟨r0, hr0, rfl, rfl, rfl⟩

theorem processRankDates_id {isOrganic : Bool} {ctx : Ctx} {asin kw : String}
    {row : List CellValue} {ds : List String} {st st' : RankState} {k : RankKey} {r0 : RankRecord}
    (h : processRankDates isOrganic ctx asin kw row ds st = .ok st')
    (hr0 : dget st.m k = some r0) :
    ∃ r, dget st'.m k = some r ∧ r.asin = r0.asin ∧ r.keyword = r0.keyword ∧
      r.date = r0.date := by
  induction ds generalizing st r0 with
  | nil => cases h; exact ⟨r0, hr0, rfl, rfl, rfl⟩
  | cons d rest ih =>
    unfold processRankDates at h
    cases hs : processRankCell isOrganic ctx asin kw row st d with
    | error e2 => rw [hs] at h; cases h
    | ok st1 =>
      rw [hs] at h
      obtain ⟨r1, hg1, ha1, hw1, hd1⟩ := processRankCell_id hs hr0
      obtain ⟨r2, hg2, ha2, hw2, hd2⟩ := ih h hg1
      exact ⟨r2, hg2, ha2.trans ha1, hw2.trans hw1, hd2.trans hd1⟩

theorem processRankRow_id {isOrganic : Bool} {ctx : Ctx} {st st' : RankState}
    {row : List CellValue} {k : RankKey} {r0 : RankRecord}
    (h : processRankRow isOrganic ctx st row = .ok st')
    (hr0 : dget st.m k = some r0) :
    ∃ r, dget st'.m k = some r ∧ r.asin = r0.asin ∧ r.keyword = r0.keyword ∧
      r.date = r0.date := by
  unfold processRankRow at h
  cases he : entityKeyOfRow ctx row with
  | error e2 => rw [he] at h; cases h
  | ok o =>
    rw [he] at h
    cases o with
    | none => cases h; exact ⟨r0, hr0, rfl, rfl, rfl⟩
    | some v =>
      rcases v with ⟨key, asin, kw⟩
      exact processRankDates_id h hr0

theorem processRankRows_id {isOrganic : Bool} {ctx : Ctx}
    {rows : List (List CellValue)} {st st' : RankState} {k : RankKey} {r0 : RankRecord}
    (h : processRankRows isOrganic ctx rows st = .ok st')
    (hr0 : dget st.m k = some r0) :
    ∃ r, dget st'.m k = some r ∧ r.asin = r0.asin ∧ r.keyword = r0.keyword ∧
      r.date = r0.date := by
  induction rows generalizing st r0 with
  | nil => cases h; exact ⟨r0, hr0, rfl, rfl, rfl⟩
  | cons row rest ih =>
    unfold processRankRows at h
    cases hs : processRankRow isOrganic ctx st row with
    | error e2 => rw [hs] at h; cases h
    | ok st1 =>
      rw [hs] at h
      obtain ⟨r1, hg1, ha1, hw1, hd1⟩ := processRankRow_id hs hr0
      obtain ⟨r2, hg2, ha2, hw2, hd2⟩ := ih h hg1
      exact ⟨r2, hg2, ha2.trans ha1, hw2.trans hw1, hd2.trans hd1⟩

/-- A cell step cannot create a key it does not carry. -/
theorem processRankCell_none {isOrganic : Bool} {ctx : Ctx} {asin kw : String}
    {row : List CellValue} {st st' : RankState} {d : String} {k : RankKey}
    (h : processRankCell isOrganic ctx asin kw row st d = .ok st')
    (hn : dget st.m k = Option.none)
    (hne : ¬ (k = (pyUpper asin, pyLower kw, d) ∧ cellContributes ctx row d = true)) :
    dget st'.m k = Option.none := by
  cases hd : dget st'.m k with
  | none => rfl
  | some r =>
    rcases processRankCell_sound h (by rw [hd]; rfl) with hs | hc
    · rw [hn] at hs; cases hs
    · exact absurd hc hne

/-- Creation: the first contributing cell stores the row's raw ASIN,
keyword and the date. -/
theorem processRankCell_create {isOrganic : Bool} {ctx : Ctx} {asin kw : String}
    {row : List CellValue} {st st' : RankState} {d : String} {k : RankKey}
    (h : processRankCell isOrganic ctx asin kw row st d = .ok st')
    (hn : dget st.m k = Option.none)
    (hc : cellContributes ctx row d = true)
    (hkey : k = (pyUpper asin, pyLower kw, d)) :
    ∃ r, dget st'.m k = some r ∧ r.asin = asin ∧ r.keyword = kw ∧ r.date = d := by
  unfold processRankCell at h
  unfold cellContributes at hc
  cases hr : resolveDateIdx ctx d with
  | none => rw [hr] at hc; cases hc
  | some idx =>
    rw [hr] at h hc
    dsimp only at h hc
    split at hc
    · rename_i hlen
      rw [dif_pos hlen] at h
      cases hp : parse_rank_value (row.get ⟨idx, hlen⟩) with
      | error e2 => rw [hp] at hc; cases hc
      | ok pr =>
        rw [hp] at h hc
        rcases pr with ⟨rank, oor⟩
        dsimp only at h hc
        have hcond : ¬ (rank = Option.none ∧ oor = false) := by
          rcases rank with _ | r <;> cases oor <;> simp_all
        rw [if_neg hcond] at h
        cases h
        rw [bumpCount_m, hkey, dget_dset, if_pos rfl]
        have hbase : (dget st.m (pyUpper asin, pyLower kw, d)).getD (freshRank asin kw d) =
            freshRank asin kw d := by
          rw [← hkey, hn]
          rfl
        rw [hbase]
        refine ⟨_, rfl, ?_, ?_, ?_⟩
        · exact (setFacet_id _ _ _ _).1
        · exact (setFacet_id _ _ _ _).2.1
        · exact (setFacet_id _ _ _ _).2.2
    · cases hc

theorem processRankDates_create {isOrganic : Bool} {ctx : Ctx} {asin kw : String}
    {row : List CellValue} {ds : List String} {st st' : RankState} {k : RankKey}
    (h : processRankDates isOrganic ctx asin kw row ds st = .ok st')
    (hn : dget st.m k = Option.none)
    (hmem : k.2.2 ∈ ds)
    (hc : cellContributes ctx row k.2.2 = true)
    (ha : k.1 = pyUpper asin) (hw : k.2.1 = pyLower kw) :
    ∃ r, dget st'.m k = some r ∧ r.asin = asin ∧ r.keyword = kw ∧ r.date = k.2.2 := by
  induction ds generalizing st with
  | nil => cases hmem
  | cons d rest ih =>
    unfold processRankDates at h
    cases hs : processRankCell isOrganic ctx asin kw row st d with
    | error e2 => rw [hs] at h; cases h
    | ok st1 =>
      rw [hs] at h
      have hkd : k = (k.1, k.2.1, k.2.2) := rfl
      by_cases hd : k.2.2 = d
      · have hkey : k = (pyUpper asin, pyLower kw, d) := by
          rw [hkd, ha, hw, hd]
        obtain ⟨r1, hg1, ha1, hw1, hd1⟩ :=
          processRankCell_create hs hn (hd ▸ hc) hkey
        obtain ⟨r2, hg2, ha2, hw2, hd2⟩ := processRankDates_id h hg1
        exact ⟨r2, hg2, ha2.trans ha1, hw2.trans hw1, by rw [hd2, hd1, hd]⟩
      · have hmem' : k.2.2 ∈ rest := by
          rcases List.mem_cons.mp hmem with he | hm
          · exact absurd he hd
          · exact hm
        have hn1 : dget st1.m k = Option.none := by
          refine processRankCell_none hs hn ?_
          rintro ⟨hkey, -⟩
          exact hd (by rw [hkey])
        exact ih h hn1 hmem'

theorem processRankRow_create {isOrganic : Bool} {ctx : Ctx} {st st' : RankState}
    {row : List CellValue} {k : RankKey}
    (h : processRankRow isOrganic ctx st row = .ok st')
    (hn : dget st.m k = Option.none)
    (hc : rowContributes ctx k row = true) :
    ∃ r, dget st'.m k = some r ∧
      entityKeyOfRow ctx row = .ok (some ((k.1, k.2.1), r.asin, r.keyword)) ∧
      r.date = k.2.2 := by
  unfold rowContributes at hc
  rw [Bool.and_eq_true, Bool.and_eq_true] at hc
  rcases hc with ⟨⟨hkb, hmem⟩, hcell⟩
  unfold processRankRow at h
  unfold rowKeyB at hkb
  cases he : entityKeyOfRow ctx row with
  | error e2 => rw [he] at hkb; cases hkb
  | ok o =>
    rw [he] at h hkb
    cases o with
    | none => cases hkb
    | some v =>
      rcases v with ⟨key, asin, kw⟩
      have hkey := entityKeyOfRow_ok_inv he
      have hkk : key = (k.1, k.2.1) := by simpa using hkb
      have ha : k.1 = pyUpper asin := by
        rw [hkey] at hkk
        exact (congrArg Prod.fst hkk).symm
      have hw : k.2.1 = pyLower kw := by
        rw [hkey] at hkk
        exact (congrArg Prod.snd hkk).symm
      obtain ⟨r, hg, hra, hrw, hrd⟩ :=
        processRankDates_create h hn (by simpa using hmem) hcell ha hw
      refine ⟨r, hg, ?_, hrd⟩
      rw [hkk, hra, hrw]

/-- A non-contributing row cannot create the key. -/
theorem processRankRow_none {isOrganic : Bool} {ctx : Ctx} {st st' : RankState}
    {row : List CellValue} {k : RankKey}
    (h : processRankRow isOrganic ctx st row = .ok st')
    (hn : dget st.m k = Option.none)
    (hc : rowContributes ctx k row = false) :
    dget st'.m k = Option.none := by
  cases hd : dget st'.m k with
  | none => rfl
  | some r =>
    rcases processRankRow_sound h (by rw [hd]; rfl) with hs | hcr
    · rw [hn] at hs; cases hs
    · rw [hc] at hcr; cases hcr

/-- First-contributor characterization of one sheet's rank loop. -/
theorem processRankRows_first {isOrganic : Bool} {ctx : Ctx}
    {rows : List (List CellValue)} {st st' : RankState} {k : RankKey}
    (h : processRankRows isOrganic ctx rows st = .ok st')
    (hn : dget st.m k = Option.none) :
    match rows.find? (fun row => rowContributes ctx k row) with
    | some row => ∃ r, dget st'.m k = some r ∧
        entityKeyOfRow ctx row = .ok (some ((k.1, k.2.1), r.asin, r.keyword)) ∧
        r.date = k.2.2
    | Option.none => dget st'.m k = Option.none := by
  induction rows generalizing st with
  | nil => cases h; simpa using hn
  | cons row rest ih =>
    unfold processRankRows at h
    cases hs : processRankRow isOrganic ctx st row with
    | error e2 => rw [hs] at h; cases h
    | ok st1 =>
      rw [hs] at h
      cases hcr : rowContributes ctx k row with
      | true =>
        rw [List.find?_cons_of_pos _ hcr]
        obtain ⟨r, hg, he, hd⟩ := processRankRow_create hs hn hcr
        obtain ⟨r2, hg2, ha2, hw2, hd2⟩ := processRankRows_id h hg
        refine ⟨r2, hg2, ?_, hd2.trans hd⟩
        rw [he, ha2, hw2]
      | false =>
        rw [List.find?_cons_of_neg _ (by simp [hcr])]
        exact ih h (processRankRow_none hs hn hcr)

/-- Composition over both sheets: the entry at a key of the merged map
is created by the first contributing row in pass order, and carries
that row's raw ASIN/keyword and the key's date. -/
theorem rankPass_first {ctx : Ctx} {od sd : Option (List (List CellValue))}
    {st : RankState} {k : RankKey} {r : RankRecord}
    (h : rankPass ctx od sd = .ok st)
    (hg : dget st.m k = some r) :
    ∃ row, firstContribRow ctx od sd k = some row ∧
      entityKeyOfRow ctx row = .ok (some ((k.1, k.2.1), r.asin, r.keyword)) ∧
      r.date = k.2.2 := by
  obtain ⟨st1, ho, hs⟩ := rankPass_ok h
  unfold firstContribRow
  have horg := processRankRows_first (k := k) ho (by rw [dget_nil])
  cases hf : (sheetRows od).find? (fun row => rowContributes ctx k row) with
  | some row =>
    rw [hf] at horg
    obtain ⟨r1, hg1, he1, hd1⟩ := horg
    obtain ⟨r2, hg2, ha2, hw2, hd2⟩ := processRankRows_id hs hg1
    rw [hg] at hg2
    cases hg2
    exact ⟨row, rfl, by rw [he1, ha2, hw2], hd2.trans hd1⟩
  | none =>
    rw [hf] at horg
    have hspon := processRankRows_first (k := k) hs horg
    cases hf2 : (sheetRows sd).find? (fun row => rowContributes ctx k row) with
    | some row =>
      rw [hf2] at hspon
      obtain ⟨r1, hg1, he1, hd1⟩ := hspon
      rw [hg] at hg1
      cases hg1
      exact ⟨row, rfl, he1, hd1⟩
    | none =>
      rw [hf2] at hspon
      rw [hg] at hspon
      cases hspon

theorem processRankCell_nodup {isOrganic : Bool} {ctx : Ctx} {asin kw : String}
    {row : List CellValue} {st st' : RankState} {d : String}
    (h : processRankCell isOrganic ctx asin kw row st d = .ok st')
    (hn : (st.m.map Prod.fst).Nodup) : (st'.m.map Prod.fst).Nodup := by
  unfold processRankCell at h
  cases hr : resolveDateIdx ctx d with
  | none => rw [hr] at h; cases h; exact hn
  | some idx =>
    rw [hr] at h
    dsimp only at h
    split at h
    · rename_i hlen
      cases hp : parse_rank_value (row.get ⟨idx, hlen⟩) with
      | error e2 => rw [hp] at h; cases h
      | ok pr =>
        rw [hp] at h
        rcases pr with ⟨rank, oor⟩
        dsimp only at h
        split at h
        · cases h; exact hn
        · cases h
          rw [bumpCount_m]
          exact nodup_keys_dset _ _ _ hn
    · cases h; exact hn

theorem processRankDates_nodup {isOrganic : Bool} {ctx : Ctx} {asin kw : String}
    {row : List CellValue} {ds : List String} {st st' : RankState}
    (h : processRankDates isOrganic ctx asin kw row ds st = .ok st')
    (hn : (st.m.map Prod.fst).Nodup) : (st'.m.map Prod.fst).Nodup := by
  induction ds generalizing st with
  | nil => cases h; exact hn
  | cons d rest ih =>
    unfold processRankDates at h
    cases hs : processRankCell isOrganic ctx asin kw row st d with
    | error e2 => rw [hs] at h; cases h
    | ok st1 =>
      rw [hs] at h
      exact ih h (processRankCell_nodup hs hn)

theorem processRankRow_nodup {isOrganic : Bool} {ctx : Ctx} {st st' : RankState}
    {row : List CellValue}
    (h : processRankRow isOrganic ctx st row = .ok st')
    (hn : (st.m.map Prod.fst).Nodup) : (st'.m.map Prod.fst).Nodup := by
  unfold processRankRow at h
  cases he : entityKeyOfRow ctx row with
  | error e2 => rw [he] at h; cases h
  | ok o =>
    rw [he] at h
    cases o with
    | none => cases h; exact hn
    | some v =>
      rcases v with ⟨key, asin, kw⟩
      exact processRankDates_nodup h hn

theorem processRankRows_nodup {isOrganic : Bool} {ctx : Ctx}
    {rows : List (List CellValue)} {st st' : RankState}
    (h : processRankRows isOrganic ctx rows st = .ok st')
    (hn : (st.m.map Prod.fst).Nodup) : (st'.m.map Prod.fst).Nodup := by
  induction rows generalizing st with
  | nil => cases h; exact hn
  | cons row rest ih =>
    unfold processRankRows at h
    cases hs : processRankRow isOrganic ctx st row with
    | error e2 => rw [hs] at h; cases h
    | ok st1 =>
      rw [hs] at h
      exact ih h (processRankRow_nodup hs hn)

theorem rankPass_nodup {ctx : Ctx} {od sd : Option (List (List CellValue))} {st : RankState}
    (h : rankPass ctx od sd = .ok st) : (st.m.map Prod.fst).Nodup := by
  obtain ⟨st1, ho, hs⟩ := rankPass_ok h
  exact processRankRows_nodup hs (processRankRows_nodup ho (by simp))

theorem dget_merged (m : List (RankKey × RankRecord)) (kept : List EntityKey) (k : RankKey) :
    dget (m.filter (fun p => decide ((p.1.1, p.1.2.1) ∈ kept))) k =
      if decide ((k.1, k.2.1) ∈ kept) then dget m k else Option.none :=
  dget_filter_key m (fun key => decide ((key.1, key.2.1) ∈ kept)) k

/-- C2: a record exists in the final measurement map for a key iff
some sheet produced a non-trivial cell for that key, and the key's
entity pair survived the retention filter. -/
theorem measurement_exists_iff
    (od sd : Option (List (List CellValue))) (mid iid now : String) (ctx : Ctx)
    (recs : List KwRecord) (merged : List (RankKey × RankRecord))
    (dates : List String) (stats : Stats)
    (hctx : mkCtx od sd = .ok ctx)
    (hrun : parse_excel od sd mid iid now = .ok (recs, merged, dates, stats)) :
    ∀ k : RankKey, (dget merged k).isSome = true ↔
      ((∃ row ∈ sheetRows od, rowContributes ctx k row = true) ∨
       (∃ row ∈ sheetRows sd, rowContributes ctx k row = true)) ∧
      (k.1, k.2.1) ∈ recs.map recKey := by
  obtain ⟨ctx', hctx', hbody⟩ := parse_excel_ok hrun
  rw [hctx] at hctx'
  cases hctx'
  obtain ⟨kmap, st, hent, hrank, hout⟩ := parseBody_ok hbody
  obtain ⟨st1, ho, hs⟩ := rankPass_ok hrank
  have hrecs : recs = (kmap.map Prod.snd).filter keepRecord := by
    have := congrArg Prod.fst hout
    simpa [assemble] using this
  have hmerged : merged = st.m.filter
      (fun p => decide ((p.1.1, p.1.2.1) ∈ recs.map recKey)) := by
    have := congrArg (fun o => o.2.1) hout
    simp only [assemble] at this
    rw [← hrecs] at this
    exact this
  intro k
  rw [hmerged, dget_merged]
  constructor
  · intro hsome
    by_cases hkept : (k.1, k.2.1) ∈ recs.map recKey
    · refine ⟨?_, hkept⟩
      rw [if_pos (by simpa using hkept)] at hsome
      rcases processRankRows_sound hs hsome with h1 | hc
      · rcases processRankRows_sound ho h1 with h2 | hc2
        · rw [dget_nil] at h2; cases h2
        · exact Or.inl hc2
      · exact Or.inr hc
    · rw [if_neg (by simpa using hkept)] at hsome
      cases hsome
  · rintro ⟨hcontrib, hkept⟩
    rw [if_pos (by simpa using hkept)]
    rcases hcontrib with hc | hc
    · exact processRankRows_mono hs (processRankRows_complete ho hc)
    · exact processRankRows_complete hs hc

/-- C10: every entry of the final measurement map is consistent with
its key (stored date equals the key date, ASIN upper-cases to the key,
keyword lower-cases to it), and the denormalized ASIN/keyword keep the
raw casing of the first row, in pass order, that contributed to the
key. -/
theorem measurement_record_key_consistency
    (od sd : Option (List (List CellValue))) (mid iid now : String) (ctx : Ctx)
    (recs : List KwRecord) (merged : List (RankKey × RankRecord))
    (dates : List String) (stats : Stats)
    (hctx : mkCtx od sd = .ok ctx)
    (hrun : parse_excel od sd mid iid now = .ok (recs, merged, dates, stats)) :
    ∀ k r, (k, r) ∈ merged →
      r.date = k.2.2 ∧ pyUpper r.asin = k.1 ∧ pyLower r.keyword = k.2.1 ∧
      ∃ row, firstContribRow ctx od sd k = some row ∧
        entityKeyOfRow ctx row = .ok (some ((k.1, k.2.1), r.asin, r.keyword)) := by
  obtain ⟨ctx', hctx', hbody⟩ := parse_excel_ok hrun
  rw [hctx] at hctx'
  cases hctx'
  obtain ⟨kmap, st, hent, hrank, hout⟩ := parseBody_ok hbody
  have hmerged : ∀ p, p ∈ merged → p ∈ st.m := by
    intro p hp
    have h21 := congrArg (fun o => o.2.1) hout
    simp only [assemble] at h21
    rw [h21] at hp
    exact List.mem_of_mem_filter hp
  intro k r hkr
  have hmem : (k, r) ∈ st.m := hmerged _ hkr
  have hget : dget st.m k = some r := dget_of_mem (rankPass_nodup hrank) hmem
  obtain ⟨row, hrow, he, hd⟩ := rankPass_first hrank hget
  have hinv := entityKeyOfRow_ok_inv he
  refine ⟨hd, ?_, ?_, row, hrow, he⟩
  · exact (congrArg Prod.fst hinv).symm
  · exact (congrArg Prod.snd hinv).symm

theorem measurement_exists_iff_witness :
    ∃ recs merged dates stats,
      parse_excel sampleOrganic sampleSponsored "mkt" "imp" "t" = .ok (recs, merged, dates, stats) ∧
      ∀ k : RankKey, (dget merged k).isSome = true ↔
        ((∃ row ∈ sheetRows sampleOrganic, rowContributes sampleCtx k row = true) ∨
         (∃ row ∈ sheetRows sampleSponsored, rowContributes sampleCtx k row = true)) ∧
        (k.1, k.2.1) ∈ recs.map recKey :=
  ⟨_, _, _, _, by rfl,
    measurement_exists_iff sampleOrganic sampleSponsored "mkt" "imp" "t" sampleCtx
      _ _ _ _ (by rfl) (by rfl)⟩

theorem measurement_record_key_consistency_witness :
    ∃ recs merged dates stats,
      parse_excel sampleOrganic sampleSponsored "mkt" "imp" "t" = .ok (recs, merged, dates, stats) ∧
      ∀ k r, (k, r) ∈ merged →
        r.date = k.2.2 ∧ pyUpper r.asin = k.1 ∧ pyLower r.keyword = k.2.1 ∧
        ∃ row, firstContribRow sampleCtx sampleOrganic sampleSponsored k = some row ∧
          entityKeyOfRow sampleCtx row = .ok (some ((k.1, k.2.1), r.asin, r.keyword)) :=
  ⟨_, _, _, _, by rfl,
    measurement_record_key_consistency sampleOrganic sampleSponsored "mkt" "imp" "t" sampleCtx
      _ _ _ _ (by rfl) (by rfl)⟩

/-- C3 (failing input): the classifier is not total.  A cell whose
string form parses to an infinite float reaches `int(float(val_str))`,
which raises an `OverflowError` that the `except (ValueError,
TypeError)` clause does not catch. -/
theorem parse_rank_value_raises_on_infinite_string :
    parse_rank_value (CellValue.str "inf") = .error .overflowError ∧
    parse_rank_value (CellValue.str "1e999") = .error .overflowError ∧
    parse_rank_value (CellValue.float .inf) = .error .overflowError := by
  refine ⟨by decide, by decide, by decide⟩

/-- C4 (counterexample): the spec's worked example
`classify("150") == (absent, true)` is wrong — 150 lies inside the
closed range [1, 306], so the code returns the parsed rank. -/
theorem parse_rank_value_150_in_range :
    parse_rank_value (CellValue.str "150") = .ok (some 150, false) ∧
    parse_rank_value (CellValue.str "150") ≠ .ok (Option.none, true) := by
  refine ⟨by decide, by decide⟩

/-- C4 (amended): the worked examples with the `"150"` case corrected
to its actual in-range classification. -/
theorem parse_rank_value_examples :
    parse_rank_value (.str "97+") = .ok (Option.none, true) ∧
    parse_rank_value (.str "") = .ok (Option.none, false) ∧
    parse_rank_value .none = .ok (Option.none, false) ∧
    parse_rank_value (.str "150") = .ok (some 150, false) ∧
    parse_rank_value (.str "42") = .ok (some 42, false) := by
  refine ⟨by decide, by decide, by decide, by decide, by decide⟩

theorem keepRecord_iff (r : KwRecord) :
    keepRecord r = true ↔
      r.tracked = true ∨ ∃ f, r.spent = some f ∧ pyGtZero f = true := by
  unfold keepRecord
  cases hs : r.spent with
  | none => simp
  | some f => simp

/-- C6: the retention filter keeps a record iff its tracking flag is
set or its spend is present and strictly positive; untracked records
with zero or absent spend are dropped, untracked records with spend
12.5 are kept. -/
theorem retention_filter_iff
    (od sd : Option (List (List CellValue))) (mid iid now : String) (ctx : Ctx)
    (kmap : List (EntityKey × KwRecord))
    (recs : List KwRecord) (merged : List (RankKey × RankRecord))
    (dates : List String) (stats : Stats)
    (hctx : mkCtx od sd = .ok ctx)
    (hent : entityPass ctx od sd mid iid now = .ok kmap)
    (hrun : parse_excel od sd mid iid now = .ok (recs, merged, dates, stats)) :
    (∀ r : KwRecord, r ∈ recs ↔ r ∈ kmap.map Prod.snd ∧
      (r.tracked = true ∨ ∃ f, r.spent = some f ∧ pyGtZero f = true)) ∧
    (∀ r : KwRecord, r.tracked = false →
      (r.spent = Option.none ∨ ∃ q, r.spent = some (.finite q) ∧ q.n = 0) →
      keepRecord r = false) ∧
    (∀ r : KwRecord, r.tracked = false →
      r.spent = some (.finite { n := 25, d := 2 }) → keepRecord r = true) := by
  obtain ⟨ctx', hctx', hbody⟩ := parse_excel_ok hrun
  rw [hctx] at hctx'
  cases hctx'
  obtain ⟨kmap', st, hent', hrank, hout⟩ := parseBody_ok hbody
  rw [hent] at hent'
  cases hent'
  have hrecs : recs = (kmap.map Prod.snd).filter keepRecord := by
    have := congrArg Prod.fst hout
    simpa [assemble] using this
  refine ⟨?_, ?_, ?_⟩
  · intro r
    rw [hrecs, List.mem_filter, keepRecord_iff]
  · intro r htr hsp
    unfold keepRecord
    rw [htr]
    rcases hsp with hn | ⟨q, hq, hq0⟩
    · rw [hn]
      rfl
    · rw [hq]
      simp [pyGtZero, qPos, hq0]
  · intro r htr hsp
    unfold keepRecord
    rw [htr, hsp]
    rfl

theorem retention_filter_iff_witness :
    ∃ kmap recs merged dates stats,
      entityPass sampleCtx sampleOrganic sampleSponsored "mkt" "imp" "t" = .ok kmap ∧
      parse_excel sampleOrganic sampleSponsored "mkt" "imp" "t" = .ok (recs, merged, dates, stats) ∧
      ∀ r : KwRecord, r ∈ recs ↔ r ∈ kmap.map Prod.snd ∧
        (r.tracked = true ∨ ∃ f, r.spent = some f ∧ pyGtZero f = true) :=
  ⟨_, _, _, _, _, by rfl, by rfl,
    (retention_filter_iff sampleOrganic sampleSponsored "mkt" "imp" "t" sampleCtx
      _ _ _ _ _ (by rfl) (by rfl) (by rfl)).1⟩

/-! ### Date-normalization lemmas -/

theorem toList_append (a b : String) : (a ++ b).toList = a.toList ++ b.toList := by
  cases a
  cases b
  rfl

theorem mk_toList (s : String) : String.mk s.toList = s := by
  cases s
  rfl

theorem digit_not_space {c : Char} (h : c.isDigit = true) : isPySpace c = false := by
  unfold isPySpace
  by_contra hne
  have ht : (decide (c = ' ' ∨ c = '\t' ∨ c = '\n' ∨ c = '\x0d' ∨ c = '\x0b' ∨ c = '\x0c')) = true := by
    revert hne
    cases hd : (decide (c = ' ' ∨ c = '\t' ∨ c = '\n' ∨ c = '\x0d' ∨ c = '\x0b' ∨ c = '\x0c')) <;> simp
  rw [decide_eq_true_iff] at ht
  rcases ht with h1 | h1 | h1 | h1 | h1 | h1 <;> subst h1 <;> exact absurd h (by decide)

/-- A string with a non-space first character and non-space last
character is unchanged by `strip()`. -/
theorem pyStrip_eq_self {s : String} {c : Char} {cs : List Char} {d : Char}
    (hl : s.toList = c :: cs) (hc : isPySpace c = false)
    (hd : s.toList.getLast? = some d) (hds : isPySpace d = false) :
    pyStrip s = s := by
  unfold pyStrip
  rw [hl]
  rw [List.dropWhile_cons, hc]
  simp only [Bool.false_eq_true, if_false]
  cases hrev : (c :: cs).reverse with
  | nil => exact absurd hrev (by simp)
  | cons e es =>
    have he : e = d := by
      have h1 : (c :: cs).reverse.head? = some e := by rw [hrev]; rfl
      rw [List.head?_reverse] at h1
      rw [hl] at hd
      rw [hd] at h1
      cases h1
      rfl
    subst he
    rw [List.dropWhile_cons, hds]
    simp only [Bool.false_eq_true, if_false]
    rw [← hrev, List.reverse_reverse, ← hl, mk_toList]

theorem matchesDatePattern_len {s : String} (h : s.toList.length ≠ 10) :
    matchesDatePattern s = false := by
  unfold matchesDatePattern
  split
  · rename_i heq
    exact absurd (by rw [heq]; rfl) h
  · rfl

/-- The 10-character structure of a pattern-matching string. -/
theorem matchesDatePattern_struct {s : String} (h : matchesDatePattern s = true) :
    ∃ a b c d e f g k : Char,
      s.toList = [a, b, c, d, '-', e, f, '-', g, k] ∧
      a.isDigit = true ∧ k.isDigit = true := by
  unfold matchesDatePattern at h
  split at h
  · rename_i a b c d h1 e f h2 g k heq
    simp only [Bool.and_eq_true, decide_eq_true_eq] at h
    obtain ⟨⟨⟨⟨⟨⟨⟨⟨⟨ha, hb⟩, hc⟩, hd⟩, hh1⟩, he⟩, hf⟩, hh2⟩, hg⟩, hk⟩ := h
    exact ⟨a, b, c, d, e, f, g, k, by rw [heq, hh1, hh2], ha, hk⟩
  · cases h

theorem pyStr_datetime_midnight (y m d : ℕ) :
    pyStr (.datetime y m d 0 0 0) = fmtYMD y m d ++ " 00:00:00" := by
  show fmtYMD y m d ++ " " ++ padZeros 2 (toString (0 : ℕ)) ++ ":" ++ padZeros 2 (toString (0 : ℕ))
      ++ ":" ++ padZeros 2 (toString (0 : ℕ)) = _
  rw [show padZeros 2 (toString (0 : ℕ)) = "00" from by decide]
  rw [String.append_assoc, String.append_assoc, String.append_assoc, String.append_assoc,
    String.append_assoc]
  rw [show (" " ++ ("00" ++ (":" ++ ("00" ++ (":" ++ "00"))))) = " 00:00:00" from by decide]

/-- The four header forms of one calendar date all normalize to the
same canonical string. -/
theorem normalizeDateCell_forms (y m d : ℕ)
    (hp : matchesDatePattern (fmtYMD y m d) = true) :
    normalizeDateCell (.date y m d) = some (fmtYMD y m d) ∧
    normalizeDateCell (.datetime y m d 0 0 0) = some (fmtYMD y m d) ∧
    normalizeDateCell (.str (fmtYMD y m d)) = some (fmtYMD y m d) ∧
    normalizeDateCell (.str (fmtYMD y m d ++ " 00:00:00")) = some (fmtYMD y m d) := by
  obtain ⟨a, b, c, dd, e, f, g, k, hlist, ha, hk⟩ := matchesDatePattern_struct hp
  have hlast : (fmtYMD y m d).toList.getLast? = some k := by rw [hlist]; rfl
  have hstrip : pyStrip (fmtYMD y m d) = fmtYMD y m d :=
    pyStrip_eq_self hlist (digit_not_space ha) hlast (digit_not_space hk)
  have hlen10 : (fmtYMD y m d).toList.length = 10 := by rw [hlist]; rfl
  -- the long "date plus midnight" string
  have hlong : (fmtYMD y m d ++ " 00:00:00").toList =
      (fmtYMD y m d).toList ++ " 00:00:00".toList := toList_append _ _
  have hlonglist : (fmtYMD y m d ++ " 00:00:00").toList =
      a :: (([b, c, dd, '-', e, f, '-', g, k] : List Char) ++ " 00:00:00".toList) := by
    rw [hlong, hlist]
    rfl
  have hlonglast : (fmtYMD y m d ++ " 00:00:00").toList.getLast? = some '0' := by
    rw [hlong]
    rw [List.getLast?_append]
    rfl
  have hstriplong : pyStrip (fmtYMD y m d ++ " 00:00:00") = fmtYMD y m d ++ " 00:00:00" :=
    pyStrip_eq_self hlonglist (digit_not_space ha) hlonglast (by decide)
  have hlenlong : (fmtYMD y m d ++ " 00:00:00").toList.length = 19 := by
    rw [hlong, List.length_append, hlen10]
    rfl
  have hpatlong : matchesDatePattern (fmtYMD y m d ++ " 00:00:00") = false :=
    matchesDatePattern_len (by rw [hlenlong]; decide)
  have htake : strTake (fmtYMD y m d ++ " 00:00:00") 10 = fmtYMD y m d := by
    unfold strTake
    rw [hlong, List.take_left' hlen10, mk_toList]
  refine ⟨?_, ?_, ?_, ?_⟩
  · unfold normalizeDateCell
    rw [show pyStr (.date y m d) = fmtYMD y m d from rfl, hstrip]
    dsimp only
    rw [hp]
    rfl
  · unfold normalizeDateCell
    rw [pyStr_datetime_midnight, hstriplong]
    dsimp only
    rw [hpatlong]
    rfl
  · unfold normalizeDateCell
    rw [show pyStr (.str (fmtYMD y m d)) = fmtYMD y m d from rfl, hstrip]
    dsimp only
    rw [hp]
    rfl
  · unfold normalizeDateCell
    rw [show pyStr (.str (fmtYMD y m d ++ " 00:00:00")) = fmtYMD y m d ++ " 00:00:00" from rfl,
      hstriplong]
    dsimp only
    rw [hpatlong, htake, hp]
    rw [show strLen (fmtYMD y m d ++ " 00:00:00") = 19 from hlenlong]
    rfl

/-- C7: date-header normalization follows the three-rule cascade (the
spec's worked example holds), every representation of a calendar date
yields the identical canonical string, and the date list returned by
`parse_excel` is sorted ascending. -/
theorem date_normalization_and_sorted_dates :
    (detect_date_columns [.str "2025-01-05", .str "ASIN"] =
      (["2025-01-05"], [("2025-01-05", .str "2025-01-05")])) ∧
    (∀ y m d : ℕ, matchesDatePattern (fmtYMD y m d) = true →
      normalizeDateCell (.date y m d) = some (fmtYMD y m d) ∧
      normalizeDateCell (.datetime y m d 0 0 0) = some (fmtYMD y m d) ∧
      normalizeDateCell (.str (fmtYMD y m d)) = some (fmtYMD y m d) ∧
      normalizeDateCell (.str (fmtYMD y m d ++ " 00:00:00")) = some (fmtYMD y m d)) ∧
    (∀ (od sd : Option (List (List CellValue))) (mid iid now : String) (ctx : Ctx)
      (recs : List KwRecord) (merged : List (RankKey × RankRecord))
      (dates : List String) (stats : Stats),
      mkCtx od sd = .ok ctx →
      parse_excel od sd mid iid now = .ok (recs, merged, dates, stats) →
      dates.Pairwise (fun a b : String => a ≤ b)) := by
  refine ⟨by decide, normalizeDateCell_forms, ?_⟩
  intro od sd mid iid now ctx recs merged dates stats hctx hrun
  obtain ⟨ctx', hctx', hbody⟩ := parse_excel_ok hrun
  rw [hctx] at hctx'
  cases hctx'
  obtain ⟨kmap, st, hent, hrank, hout⟩ := parseBody_ok hbody
  have hdates : dates = ctx.sorted_dates := by
    have := congrArg (fun o => o.2.2.1) hout
    simpa [assemble] using this
  rw [hdates]
  exact mkCtx_sorted hctx

theorem date_normalization_and_sorted_dates_witness :
    matchesDatePattern (fmtYMD 2025 1 5) = true ∧
    normalizeDateCell (.datetime 2025 1 5 0 0 0) = some (fmtYMD 2025 1 5) ∧
    ∃ recs merged dates stats,
      parse_excel sampleOrganic sampleSponsored "mkt" "imp" "t" = .ok (recs, merged, dates, stats) ∧
      dates.Pairwise (fun a b : String => a ≤ b) :=
  ⟨by decide,
   (date_normalization_and_sorted_dates.2.1 2025 1 5 (by decide)).2.1,
   _, _, _, _, by rfl,
   date_normalization_and_sorted_dates.2.2 sampleOrganic sampleSponsored "mkt" "imp" "t"
     sampleCtx _ _ _ _ (by rfl) (by rfl)⟩

theorem entityPass_err {ctx : Ctx} {od sd : Option (List (List CellValue))}
    {mid iid now : String} {e : PyError}
    (h : entityPass ctx od sd mid iid now = .error e) :
    e = .indexError ∨ e = .overflowError := by
  unfold entityPass at h
  cases hs : processEntityRows false ctx mid iid now (sheetRows sd) [] with
  | error e2 =>
    rw [hs] at h
    cases h
    exact processEntityRows_err hs
  | ok m1 =>
    rw [hs] at h
    exact processEntityRows_err h

theorem rankPass_err {ctx : Ctx} {od sd : Option (List (List CellValue))} {e : PyError}
    (h : rankPass ctx od sd = .error e) : e = .indexError ∨ e = .overflowError := by
  unfold rankPass at h
  cases ho : processRankRows true ctx (sheetRows od) { m := [], org := 0, spon := 0 } with
  | error e2 =>
    rw [ho] at h
    cases h
    exact processRankRows_err ho
  | ok st1 =>
    rw [ho] at h
    exact processRankRows_err h

theorem parseBody_err {ctx : Ctx} {od sd : Option (List (List CellValue))}
    {mid iid now : String} {e : PyError}
    (h : parseBody ctx od sd mid iid now = .error e) :
    e = .indexError ∨ e = .overflowError := by
  unfold parseBody at h
  cases he : entityPass ctx od sd mid iid now with
  | error e2 =>
    rw [he] at h
    cases h
    exact entityPass_err he
  | ok kmap =>
    rw [he] at h
    cases hr : rankPass ctx od sd with
    | error e2 =>
      rw [hr] at h
      cases h
      exact rankPass_err hr
    | ok st => rw [hr] at h; cases h

/-- A schema error of `parse_excel` comes from the header phase. -/
theorem parse_excel_schema_err {od sd : Option (List (List CellValue))}
    {mid iid now : String} {e : PyError}
    (h : parse_excel od sd mid iid now = .error e)
    (hni : e ≠ .indexError) (hno : e ≠ .overflowError) : mkCtx od sd = .error e := by
  unfold parse_excel at h
  cases hc : mkCtx od sd with
  | error e2 => rw [hc] at h; cases h; rfl
  | ok ctx =>
    rw [hc] at h
    rcases parseBody_err h with h1 | h1
    · exact absurd h1 hni
    · exact absurd h1 hno

/-- Full inversion of the header-phase errors: each schema error pins
down the document shape that produced it. -/
theorem mkCtx_err_inv {od sd : Option (List (List CellValue))} {e : PyError}
    (h : mkCtx od sd = .error e) :
    (e = .noSheets ∧ od = Option.none ∧ sd = Option.none) ∨
    (¬(od = Option.none ∧ sd = Option.none) ∧
      ((e = .emptyPrimary ∧
          ∀ pd, (if truthy od = true then od else sd) = some pd → pd.length < 2) ∨
       ∃ pd, (if truthy od = true then od else sd) = some pd ∧ ¬ pd.length < 2 ∧
         ((e = .missingColumns (missingRequired (buildColIndices (pd.headI.map headerStr))) ∧
            (missingRequired (buildColIndices (pd.headI.map headerStr))).isEmpty = false) ∨
          (e = .noDateColumns ∧
            (missingRequired (buildColIndices (pd.headI.map headerStr))).isEmpty = true ∧
            (detect_date_columns ((pd.headI.map headerStr).map CellValue.str)).1.isEmpty = true)))) := by
  unfold mkCtx at h
  by_cases h1 : od.isNone = true ∧ sd.isNone = true
  · rw [if_pos h1] at h
    cases h
    exact Or.inl ⟨rfl, Option.isNone_iff_eq_none.mp h1.1, Option.isNone_iff_eq_none.mp h1.2⟩
  · rw [if_neg h1] at h
    have h1a : ¬(od = Option.none ∧ sd = Option.none) := by
      simpa [Option.isNone_iff_eq_none] using h1
    dsimp only at h
    refine Or.inr ⟨h1a, ?_⟩
    cases hp : (if truthy od = true then od else sd) with
    | none =>
      rw [hp] at h
      cases h
      exact Or.inl ⟨rfl, fun pd hpd => by cases hpd⟩
    | some pd =>
      rw [hp] at h
      dsimp only at h
      by_cases hlen : pd.length < 2
      · rw [if_pos hlen] at h
        cases h
        refine Or.inl ⟨rfl, fun pd2 hpd2 => ?_⟩
        injection hpd2 with hh
        subst hh
        exact hlen
      · rw [if_neg hlen] at h
        refine Or.inr ⟨pd, rfl, hlen, ?_⟩
        by_cases hm : (missingRequired (buildColIndices (pd.headI.map headerStr))).isEmpty = true
        · rw [if_neg (by rw [hm]; exact Bool.not_eq_true _ ▸ (by simp))] at h
          by_cases hd : (detect_date_columns ((pd.headI.map headerStr).map CellValue.str)).1.isEmpty = true
          · rw [if_pos hd] at h
            cases h
            exact Or.inr ⟨rfl, hm, hd⟩
          · rw [if_neg hd] at h
            cases h
        · have hm2 : (missingRequired (buildColIndices (pd.headI.map headerStr))).isEmpty = false :=
            Bool.of_not_eq_true hm
          rw [if_pos (by rw [hm2]; rfl)] at h
          cases h
          exact Or.inl ⟨rfl, hm2⟩

theorem parse_excel_err_of_mkCtx {od sd : Option (List (List CellValue))}
    {mid iid now : String} {e : PyError} (h : mkCtx od sd = .error e) :
    parse_excel od sd mid iid now = .error e := by
  unfold parse_excel
  rw [h]

theorem mkCtx_emptyPrimary_of {od sd : Option (List (List CellValue))}
    (hne : ¬(od = Option.none ∧ sd = Option.none))
    (hall : ∀ pd, (if truthy od = true then od else sd) = some pd → pd.length < 2) :
    mkCtx od sd = .error .emptyPrimary := by
  unfold mkCtx
  rw [if_neg (by simpa [Option.isNone_iff_eq_none] using hne)]
  dsimp only
  cases hp : (if truthy od = true then od else sd) with
  | none => rfl
  | some pd =>
    dsimp only
    rw [if_pos (hall pd hp)]

/-- C5: `parse_excel` raises each of the four schema errors exactly under
its documented header-phase condition — no sheet at all, a primary sheet
with fewer than two rows, required identity columns absent (the error
naming exactly the missing ones), or no detectable date columns — and the
safe converters absorb non-numeric cell anomalies; but, contrary to the
claim, malformed data rows can additionally raise an uncaught
`IndexError` (row shorter than a referenced column position) or
`OverflowError` (cell parsing to an infinite float). -/
theorem parse_excel_error_modes (od sd : Option (List (List CellValue))) (mid iid now : String) :
    (parse_excel od sd mid iid now = .error .noSheets ↔
      od = Option.none ∧ sd = Option.none) ∧
    (parse_excel od sd mid iid now = .error .emptyPrimary ↔
      ¬(od = Option.none ∧ sd = Option.none) ∧
      ∀ pd, (if truthy od = true then od else sd) = some pd → pd.length < 2) ∧
    (∀ ms, parse_excel od sd mid iid now = .error (.missingColumns ms) →
      ∃ pd, (if truthy od = true then od else sd) = some pd ∧ 2 ≤ pd.length ∧
        ms = missingRequired (buildColIndices (pd.headI.map headerStr)) ∧ ms ≠ []) ∧
    (parse_excel od sd mid iid now = .error .noDateColumns →
      ∃ pd, (if truthy od = true then od else sd) = some pd ∧ 2 ≤ pd.length ∧
        missingRequired (buildColIndices (pd.headI.map headerStr)) = [] ∧
        (detect_date_columns ((pd.headI.map headerStr).map CellValue.str)).1 = []) ∧
    (safeStr (.float .nan) = "" ∧ safeNumeric (.str "n/a") = Option.none ∧
      safeInt (.str "n/a") = .ok Option.none ∧
      parse_rank_value (.str "n/a") = .ok (Option.none, false)) := by
  refine ⟨?_, ?_, ?_, ?_, by decide⟩
  · constructor
    · intro h
      have hc := parse_excel_schema_err h (by decide) (by decide)
      rcases mkCtx_err_inv hc with ⟨-, h2, h3⟩ | ⟨-, ⟨he, -⟩ | ⟨pd, -, -, ⟨he, -⟩ | ⟨he, -⟩⟩⟩
      · exact ⟨h2, h3⟩
      · cases he
      · cases he
      · cases he
    · rintro ⟨h1, h2⟩
      subst h1; subst h2
      rfl
  · constructor
    · intro h
      have hc := parse_excel_schema_err h (by decide) (by decide)
      rcases mkCtx_err_inv hc with ⟨he, -, -⟩ | ⟨h1, ⟨-, h2⟩ | ⟨pd, -, -, ⟨he, -⟩ | ⟨he, -⟩⟩⟩
      · cases he
      · exact ⟨h1, h2⟩
      · cases he
      · cases he
    · rintro ⟨h1, h2⟩
      exact parse_excel_err_of_mkCtx (mkCtx_emptyPrimary_of h1 h2)
  · intro ms h
    have hc := parse_excel_schema_err h (by intro hx; cases hx) (by intro hx; cases hx)
    rcases mkCtx_err_inv hc with ⟨he, -, -⟩ | ⟨-, ⟨he, -⟩ | ⟨pd, hp, hlen, ⟨he, hm⟩ | ⟨he, -⟩⟩⟩
    · cases he
    · cases he
    · injection he with hh
      subst hh
      refine ⟨pd, hp, Nat.not_lt.mp hlen, rfl, ?_⟩
      intro hnil
      rw [hnil] at hm
      cases hm
    · cases he
  · intro h
    have hc := parse_excel_schema_err h (by decide) (by decide)
    rcases mkCtx_err_inv hc with ⟨he, -, -⟩ | ⟨-, ⟨he, -⟩ | ⟨pd, hp, hlen, ⟨he, -⟩ | ⟨-, hm, hd⟩⟩⟩
    · cases he
    · cases he
    · cases he
    · refine ⟨pd, hp, Nat.not_lt.mp hlen, ?_, ?_⟩
      · exact List.isEmpty_iff.mp hm
      · exact List.isEmpty_iff.mp hd

theorem parse_excel_error_modes_witness :
    (parse_excel Option.none Option.none "m" "i" "t" = .error .noSheets) ∧
    (parse_excel (some [[CellValue.str "ASIN"]]) Option.none "m" "i" "t" = .error .emptyPrimary) :=
  ⟨(parse_excel_error_modes Option.none Option.none "m" "i" "t").1.mpr ⟨rfl, rfl⟩,
   (parse_excel_error_modes (some [[CellValue.str "ASIN"]]) Option.none "m" "i" "t").2.1.mpr
     ⟨by simp, fun pd hpd => by injection hpd with hh; subst hh; decide⟩⟩

/-- C5 counterexample: data-row anomalies escape the safe converters —
a sponsored row narrower than the Keyword column position resolved from
the organic header raises an uncaught `IndexError`, and an `inf` string
in the Orders column raises an uncaught `OverflowError`; neither is one
of the four schema errors the claim allows. -/
theorem parse_excel_uncaught_runtime_errors :
    parse_excel sampleOrganic narrowSponsored "m" "i" "t" = .error .indexError ∧
    parse_excel infOrdersOrganic Option.none "m" "i" "t" = .error .overflowError := by
  exact ⟨by rfl, by rfl⟩

theorem dget_mapUA (t : String) (m : List (EntityKey × KwRecord)) (k : EntityKey) :
    dget (mapUA t m) k = Option.map (setUA t) (dget m k) := by
  unfold dget mapUA
  rw [List.find?_map]
  have hc : ((fun p : EntityKey × KwRecord => decide (p.1 = k)) ∘
      (fun p : EntityKey × KwRecord => (p.1, setUA t p.2))) =
      (fun p : EntityKey × KwRecord => decide (p.1 = k)) := rfl
  rw [hc]
  cases m.find? (fun p => decide (p.1 = k)) <;> rfl

theorem dset_mapUA (t : String) (m : List (EntityKey × KwRecord)) (k : EntityKey) (v : KwRecord) :
    dset (mapUA t m) k (setUA t v) = mapUA t (dset m k v) := by
  unfold dset mapUA
  rw [List.any_map]
  have hc : (fun p : EntityKey × KwRecord => decide (p.1 = k)) ∘
      (fun p : EntityKey × KwRecord => (p.1, setUA t p.2)) =
      (fun p : EntityKey × KwRecord => decide (p.1 = k)) := rfl
  rw [hc]
  by_cases ha : m.any (fun p => decide (p.1 = k)) = true
  · rw [if_pos ha, if_pos ha, List.map_map, List.map_map]
    refine congrArg (fun f => List.map f m) (funext fun p => ?_)
    by_cases hp : p.1 = k
    · simp [hp]
    · simp [hp]
  · rw [if_neg ha, if_neg ha, List.map_append]
    rfl

theorem processEntityRow_clock (b : Bool) (ctx : Ctx) (mid iid t : String)
    (m : List (EntityKey × KwRecord)) (row : List CellValue) :
    processEntityRow b ctx mid iid t (mapUA t m) row =
      Except.map (mapUA t) (processEntityRow b ctx mid iid "" m row) := by
  unfold processEntityRow
  cases entityKeyOfRow ctx row with
  | error e => rfl
  | ok o =>
    cases o with
    | none => rfl
    | some kp =>
      obtain ⟨key, asin, kw⟩ := kp
      dsimp only
      rw [dget_mapUA]
      have hi : (Option.map (setUA t) (dget m key)).isSome = (dget m key).isSome := by
        cases dget m key <;> rfl
      rw [hi]
      by_cases hc : (!b && (dget m key).isSome) = true
      · rw [if_pos hc, if_pos hc]
        rfl
      · rw [if_neg hc, if_neg hc, buildKwRecord_clock]
        cases buildKwRecord ctx mid iid "" row asin kw with
        | error e => rfl
        | ok r =>
          simp only [Except.map]
          rw [dset_mapUA]

theorem processEntityRows_clock (b : Bool) (ctx : Ctx) (mid iid t : String)
    (rows : List (List CellValue)) :
    ∀ m, processEntityRows b ctx mid iid t rows (mapUA t m) =
      Except.map (mapUA t) (processEntityRows b ctx mid iid "" rows m) := by
  induction rows with
  | nil => intro m; rfl
  | cons row rest ih =>
    intro m
    unfold processEntityRows
    rw [processEntityRow_clock]
    cases processEntityRow b ctx mid iid "" m row with
    | error e => rfl
    | ok m1 => exact ih m1

theorem entityPass_clock (ctx : Ctx) (od sd : Option (List (List CellValue)))
    (mid iid t : String) :
    entityPass ctx od sd mid iid t = Except.map (mapUA t) (entityPass ctx od sd mid iid "") := by
  unfold entityPass
  have hsp := processEntityRows_clock false ctx mid iid t (sheetRows sd) []
  cases hs : processEntityRows false ctx mid iid "" (sheetRows sd) [] with
  | error e =>
    rw [hs] at hsp
    rw [show processEntityRows false ctx mid iid t (sheetRows sd) [] = Except.error e from hsp]
    rfl
  | ok m1 =>
    rw [hs] at hsp
    rw [show processEntityRows false ctx mid iid t (sheetRows sd) [] =
      Except.ok (mapUA t m1) from hsp]
    exact processEntityRows_clock true ctx mid iid t (sheetRows od) m1

theorem assemble_clock (ctx : Ctx) (kmap : List (EntityKey × KwRecord))
    (st : RankState) (t : String) :
    assemble ctx (mapUA t kmap) st =
      ((assemble ctx kmap st).1.map (setUA t), (assemble ctx kmap st).2.1,
       (assemble ctx kmap st).2.2.1, (assemble ctx kmap st).2.2.2) := by
  unfold assemble mapUA
  simp only [List.map_map, List.filter_map, List.length_map, Function.comp]
  rfl

theorem parseBody_clock (ctx : Ctx) (od sd : Option (List (List CellValue)))
    (mid iid t : String) :
    parseBody ctx od sd mid iid t =
      Except.map (fun o : ParseOutput => (o.1.map (setUA t), o.2.1, o.2.2.1, o.2.2.2))
        (parseBody ctx od sd mid iid "") := by
  unfold parseBody
  rw [entityPass_clock]
  cases he : entityPass ctx od sd mid iid "" with
  | error e => rfl
  | ok kmap =>
    dsimp only [Except.map]
    cases hr : rankPass ctx od sd with
    | error e => rfl
    | ok st =>
      dsimp only
      rw [assemble_clock]

theorem scrub_map_setUA (o : ParseOutput) (t : String) :
    scrubOutput (o.1.map (setUA t), o.2.1, o.2.2.1, o.2.2.2) = scrubOutput o := by
  unfold scrubOutput
  dsimp only
  rw [List.map_map]
  exact congrArg (fun f => (List.map f o.1, o.2.1, o.2.2.1, o.2.2.2)) (funext fun r => rfl)

theorem parse_excel_clock_scrub (od sd : Option (List (List CellValue)))
    (mid iid t : String) :
    scrubResult (parse_excel od sd mid iid t) = scrubResult (parse_excel od sd mid iid "") := by
  unfold parse_excel
  cases mkCtx od sd with
  | error e => rfl
  | ok ctx =>
    dsimp only
    rw [parseBody_clock]
    cases parseBody ctx od sd mid iid "" with
    | error e => rfl
    | ok o =>
      dsimp only [Except.map, scrubResult]
      rw [scrub_map_setUA]

/-- C8: `parse_excel` is a pure function of the two sheets, the
identifiers and the clock reading — equal inputs and equal clock give
equal output, and everything except the entity records' `updated_at`
field is clock-independent (so the measurement map, date list and stats
are run-to-run identical); but, contrary to the claim, `updated_at` is
read from the wall clock at parse time, so the entity records of two
runs at different instants are not structurally identical. -/
theorem parse_excel_deterministic_modulo_clock
    (od sd : Option (List (List CellValue))) (mid iid t1 t2 : String) :
    (t1 = t2 → parse_excel od sd mid iid t1 = parse_excel od sd mid iid t2) ∧
    scrubResult (parse_excel od sd mid iid t1) = scrubResult (parse_excel od sd mid iid t2) ∧
    (∀ out, parse_excel od sd mid iid t1 = .ok out → ∀ r ∈ out.1, r.updated_at = t1) := by
  refine ⟨fun h => by rw [h], ?_, ?_⟩
  · rw [parse_excel_clock_scrub od sd mid iid t1, parse_excel_clock_scrub od sd mid iid t2]
  · intro out hout r hr
    unfold parse_excel at hout
    cases hc : mkCtx od sd with
    | error e => rw [hc] at hout; cases hout
    | ok ctx =>
      rw [hc] at hout
      dsimp only at hout
      rw [parseBody_clock] at hout
      cases hb : parseBody ctx od sd mid iid "" with
      | error e => rw [hb] at hout; cases hout
      | ok o =>
        rw [hb] at hout
        dsimp only [Except.map] at hout
        cases hout
        rcases List.mem_map.mp hr with ⟨r0, -, hrr⟩
        rw [← hrr]
        rfl

theorem parse_excel_deterministic_modulo_clock_witness :
    (parse_excel sampleOrganic sampleSponsored "m" "i" "t" =
      parse_excel sampleOrganic sampleSponsored "m" "i" "t") ∧
    ∃ out, parse_excel sampleOrganic sampleSponsored "m" "i" "t" = .ok out ∧
      ∀ r ∈ out.1, r.updated_at = "t" :=
  ⟨(parse_excel_deterministic_modulo_clock sampleOrganic sampleSponsored
      "m" "i" "t" "t").1 rfl,
   _, by rfl,
   (parse_excel_deterministic_modulo_clock sampleOrganic sampleSponsored
      "m" "i" "t" "x").2.2 _ (by rfl)⟩

set_option synthInstance.maxSize 2000 in
/-- C8 counterexample: two runs of `parse_excel` on byte-identical
sheets with the same identifiers but different clock readings produce
different outputs — the entity records differ in `updated_at`. -/
theorem parse_excel_runs_differ_across_clock :
    parse_excel sampleOrganic sampleSponsored "m" "i" "t1" ≠
      parse_excel sampleOrganic sampleSponsored "m" "i" "t2" := by
  decide

end ScaleInsights
